/-
  Verification of the content-resolution and link-aggregation engine of
  coursera-dl (src/coursera/api.py) against its natural-language
  specification.

  The Python code is shallowly embedded: Python strings are Lean `String`s
  (manipulated character-wise through `String.data`, which matches Python's
  character-based slicing and comparison), Python lists are Lean `List`s,
  Python dicts (which preserve insertion order) are association lists,
  network replies are supplied by explicit environment records, and code
  that can raise returns `Option`.
-/
import Mathlib

set_option linter.unusedVariables false

namespace CourseraDL

/-! ## String helpers (Python semantics, character based) -/

/-- Python `s[:n]`: the first `n` characters of a string. -/
def strTake (s : String) (n : Nat) : String := ⟨s.data.take n⟩

/-- Python `s[:-n]` for `n ≤ len(s)`: all but the last `n` characters. -/
def strDropRight (s : String) (n : Nat) : String := ⟨s.data.take (s.data.length - n)⟩

/-- Python `len(s)` (character count). -/
def strLen (s : String) : Nat := s.data.length

/-- Python `p.startswith(q)` / prefix test, character based. -/
def strStarts (s p : String) : Bool := p.data.isPrefixOf s.data

/-- Python `p.endswith(q)` / suffix test, character based. -/
def strEnds (s p : String) : Bool := p.data.reverse.isPrefixOf s.data.reverse

/-- Python whitespace test used by `str.strip()`. -/
def isPySpace (c : Char) : Bool :=
  c == ' ' || c == '\t' || c == '\n' || c == '\r' || c == '\x0b' || c == '\x0c'

/-- Strip characters satisfying `p` from both ends (Python `str.strip`). -/
def stripWhile (p : Char → Bool) (s : String) : String :=
  ⟨((s.data.dropWhile p).reverse.dropWhile p).reverse⟩

/-- Python `s.strip()`. -/
def pyStrip (s : String) : String := stripWhile isPySpace s

/-- Python `s.strip('.')`. -/
def pyStripDot (s : String) : String := stripWhile (· == '.') s

/-- Python `s.lower()` (ASCII lowering, which is all the code relies on). -/
def pyLower (s : String) : String := ⟨s.data.map Char.toLower⟩

/-! ## C2: asset-id normalization (`CourseraOnDemand._normalize_assets`) -/

/-- Embedding of `CourseraOnDemand._normalize_assets`
(src/coursera/api.py, lines 446-470): every asset id of length exactly 24
has its last two characters cut off (Python `asset[:-2]`); other ids are
appended unchanged. -/
def normalize_assets (assets : List String) : List String :=
  assets.map (fun asset => if strLen asset == 24 then strDropRight asset 2 else asset)

/-! ## C2 theorem -/

/-- **C2**: `_normalize_assets` maps each id of length exactly 24 to its
first 22 characters, returns every id of any other length unchanged,
preserves list order and length, and on the concrete inputs
`"giAxucdaEeWJTQ5WTi8YJQ@1"` (24 chars) and the bare 22-char id behaves
as the spec's examples state. -/
theorem normalize_assets_truncates_exactly_len24 :
    (∀ assets : List String,
      (normalize_assets assets).length = assets.length ∧
      ∀ i : Nat, (normalize_assets assets)[i]? =
        (assets[i]?).map (fun a => if strLen a = 24 then strTake a 22 else a)) ∧
    normalize_assets ["giAxucdaEeWJTQ5WTi8YJQ@1"] = ["giAxucdaEeWJTQ5WTi8YJQ"] ∧
    normalize_assets ["giAxucdaEeWJTQ5WTi8YJQ"] = ["giAxucdaEeWJTQ5WTi8YJQ"] := by
  refine ⟨fun assets => ⟨by simp [normalize_assets], fun i => ?_⟩, by decide, by decide⟩
  simp only [normalize_assets, List.getElem?_map]
  cases assets[i]? with
  | none => rfl
  | some a =>
    simp only [Option.map_some', strLen, strTake, strDropRight]
    by_cases h : a.length = 24
    · have h2 : a.data.length = 24 := h
      simp [h, h2]
    · have h2 : ¬a.data.length = 24 := h
      simp [h, h2]

/-! ## HTML document model

The Python code manipulates HTML through BeautifulSoup. We embed a parsed
document as a tree of nodes; a soup is a list of top-level nodes. Parsing
and serialization (`BeautifulSoup(text)` / `soup.prettify()`) are modelled
as the identity on this tree structure: the reasoning below is about the
tree transformations the code performs between parse and serialize. -/

inductive Node where
  | text (s : String)
  | elem (name : String) (attrs : List (String × String)) (children : List Node)

/-- BeautifulSoup `tag.attrs.get(key)`: attribute lookup. -/
def attrGet (attrs : List (String × String)) (k : String) : Option String :=
  (attrs.find? (fun p => p.1 == k)).map (fun p => p.2)

/-- Python dict assignment `tag[key] = v`: replace the value of the first
occurrence of `key` in place, appending the pair when the key is absent. -/
def attrSet (attrs : List (String × String)) (k v : String) : List (String × String) :=
  match attrs with
  | [] => [(k, v)]
  | (k', v') :: rest =>
      if k' == k then (k', v) :: rest else (k', v') :: attrSet rest k v

mutual

/-- One `while soup.find(tag): soup.find(tag).name = ...` renaming loop
(BeautifulSoup tag renaming, as in `_convert_instructions_basic` and
`_replace_tag`), modelled as a single structural pass renaming every
element named `tag` to `newName attrs`. This is faithful to the `while`
loop exactly when the new name never equals `tag` again (for the heading
pass that requires `level ≠ "eading"`, see `goodNodes`; the other passes
rename to fixed distinct names). -/
def renameNode (tag : String) (newName : List (String × String) → String) : Node → Node
  | .text s => .text s
  | .elem name attrs children =>
      .elem (if name == tag then newName attrs else name) attrs
        (renameNodes tag newName children)

def renameNodes (tag : String) (newName : List (String × String) → String) :
    List Node → List Node
  | [] => []
  | n :: ns => renameNode tag newName n :: renameNodes tag newName ns

end

mutual

/-- `soup.find_all(tag)`: all descendant elements named `tag`, in document
(depth-first, pre-) order. -/
def findTagsNode (tag : String) : Node → List Node
  | .text _ => []
  | .elem name attrs children =>
      (if name == tag then [Node.elem name attrs children] else []) ++
        findTagsNodes tag children

def findTagsNodes (tag : String) : List Node → List Node
  | [] => []
  | n :: ns => findTagsNode tag n ++ findTagsNodes tag ns

end

/-- Attribute rendering for the structural serializer. -/
def renderAttrs (attrs : List (String × String)) : String :=
  attrs.foldl (fun acc p => acc ++ " " ++ p.1 ++ "=\x22" ++ p.2 ++ "\x22") ""

mutual

/-- Structural serializer standing for `soup.prettify()`: renders the tree
back to markup text (the exact whitespace of BeautifulSoup's
pretty-printing is not reproduced; no claim depends on it). -/
def renderNode : Node → String
  | .text s => s
  | .elem name attrs children =>
      "<" ++ name ++ renderAttrs attrs ++ ">" ++ renderNodes children ++ "</" ++ name ++ ">"

def renderNodes : List Node → String
  | [] => ""
  | n :: ns => renderNode n ++ renderNodes ns

end

/-! ## `MarkupToHTMLConverter._convert_instructions_basic`
(src/coursera/api.py, lines 146-175) -/

/-- Step 3's new tag name: `'h%s' % heading.attrs.get('level', '1')`. -/
def headingName (attrs : List (String × String)) : String :=
  "h" ++ (attrGet attrs "level").getD "1"

/-- Step 5's new tag name: `'ol' if bullettype == 'numbers' else 'ul'`,
with `bullettype` defaulting to `'numbers'`. -/
def listName (attrs : List (String × String)) : String :=
  if (attrGet attrs "bullettype").getD "numbers" == "numbers" then "ol" else "ul"

/-- Step 2: replace `<text>` with `<p>`. -/
def renameTextToP (d : List Node) : List Node := renameNodes "text" (fun _ => "p") d

/-- Step 3: replace `<heading level="k">` with `<hk>` (level defaults to 1). -/
def renameHeading (d : List Node) : List Node := renameNodes "heading" headingName d

/-- Step 4: replace `<code>` with `<pre>`. -/
def renameCodeToPre (d : List Node) : List Node := renameNodes "code" (fun _ => "pre") d

/-- Step 5: replace `<list>` with `<ol>` or `<ul>`. -/
def renameListTag (d : List Node) : List Node := renameNodes "list" listName d

/-- Modelled from the spec: `INSTRUCTIONS_HTML_INJECTION` is imported from
`coursera.define`, which is not under `src/`; the spec says step 1 is
"Inject a fixed CSS block into the document". Modelled as one fixed style
element. -/
def cssBlock : Node := Node.elem "style" [] [Node.text "instructions-css"]

/-- Embedding of `MarkupToHTMLConverter._convert_instructions_basic`
(lines 146-175): append the CSS injection to the soup, then run the four
marker-renaming loops in order. -/
def convert_instructions_basic (doc : List Node) : List Node :=
  renameListTag (renameCodeToPre (renameHeading (renameTextToP (doc ++ [cssBlock]))))

/-! ### Tag-absence and well-formedness predicates, and rename lemmas -/

mutual

/-- No element named `tag` occurs anywhere in the node. -/
def nodeNoTag (tag : String) : Node → Bool
  | .text _ => true
  | .elem name _ children => name != tag && nodesNoTag tag children

def nodesNoTag (tag : String) : List Node → Bool
  | [] => true
  | n :: ns => nodeNoTag tag n && nodesNoTag tag ns

end

mutual

/-- Every `heading` element's renamed name differs from `"heading"`
(i.e. its `level` attribute is not the pathological `"eading"`); on such
documents the `while soup.find('heading')` loop terminates and equals the
one-pass rename. -/
def nodeGood : Node → Bool
  | .text _ => true
  | .elem name attrs children =>
      (name != "heading" || headingName attrs != "heading") && nodesGood children

def nodesGood : List Node → Bool
  | [] => true
  | n :: ns => nodeGood n && nodesGood ns

end

theorem renameNodes_append (tag : String) (f : List (String × String) → String)
    (a b : List Node) :
    renameNodes tag f (a ++ b) = renameNodes tag f a ++ renameNodes tag f b := by
  induction a with
  | nil => rfl
  | cons n ns ih => simp [renameNodes, ih]

mutual

theorem renameNode_noop (tag : String) (f : List (String × String) → String) :
    ∀ n : Node, nodeNoTag tag n = true → renameNode tag f n = n
  | .text s, _ => rfl
  | .elem name attrs children, h => by
      simp only [nodeNoTag, Bool.and_eq_true, bne_iff_ne, ne_eq] at h
      simp [renameNode, renameNodes_noop tag f children h.2, h.1]

theorem renameNodes_noop (tag : String) (f : List (String × String) → String) :
    ∀ l : List Node, nodesNoTag tag l = true → renameNodes tag f l = l
  | [], _ => rfl
  | n :: ns, h => by
      simp only [nodesNoTag, Bool.and_eq_true] at h
      simp [renameNodes, renameNode_noop tag f n h.1, renameNodes_noop tag f ns h.2]

end

mutual

theorem renameNode_removes (tag : String) (f : List (String × String) → String)
    (hf : ∀ a, f a ≠ tag) :
    ∀ n : Node, nodeNoTag tag (renameNode tag f n) = true
  | .text s => rfl
  | .elem name attrs children => by
      simp only [renameNode, nodeNoTag, Bool.and_eq_true, bne_iff_ne, ne_eq]
      refine ⟨?_, renameNodes_removes tag f hf children⟩
      by_cases h : name = tag <;> simp [h, hf attrs]

theorem renameNodes_removes (tag : String) (f : List (String × String) → String)
    (hf : ∀ a, f a ≠ tag) :
    ∀ l : List Node, nodesNoTag tag (renameNodes tag f l) = true
  | [] => rfl
  | n :: ns => by
      simp only [renameNodes, nodesNoTag, Bool.and_eq_true]
      exact ⟨renameNode_removes tag f hf n, renameNodes_removes tag f hf ns⟩

end

mutual

theorem renameNode_keeps_noTag (tag t : String) (f : List (String × String) → String)
    (hf : ∀ a, f a ≠ t) :
    ∀ n : Node, nodeNoTag t n = true → nodeNoTag t (renameNode tag f n) = true
  | .text s, _ => rfl
  | .elem name attrs children, h => by
      simp only [nodeNoTag, Bool.and_eq_true, bne_iff_ne, ne_eq] at h
      simp only [renameNode, nodeNoTag, Bool.and_eq_true, bne_iff_ne, ne_eq]
      refine ⟨?_, renameNodes_keeps_noTag tag t f hf children h.2⟩
      by_cases hn : name = tag <;> simp [hn, hf attrs, h.1]

theorem renameNodes_keeps_noTag (tag t : String) (f : List (String × String) → String)
    (hf : ∀ a, f a ≠ t) :
    ∀ l : List Node, nodesNoTag t l = true → nodesNoTag t (renameNodes tag f l) = true
  | [], _ => rfl
  | n :: ns, h => by
      simp only [nodesNoTag, Bool.and_eq_true] at h
      simp only [renameNodes, nodesNoTag, Bool.and_eq_true]
      exact ⟨renameNode_keeps_noTag tag t f hf n h.1,
             renameNodes_keeps_noTag tag t f hf ns h.2⟩

end

mutual

theorem renameHeadingNode_removes :
    ∀ n : Node, nodeGood n = true → nodeNoTag "heading" (renameNode "heading" headingName n) = true
  | .text s, _ => rfl
  | .elem name attrs children, h => by
      simp only [nodeGood, Bool.and_eq_true, Bool.or_eq_true, bne_iff_ne, ne_eq] at h
      simp only [renameNode, nodeNoTag, Bool.and_eq_true, bne_iff_ne, ne_eq]
      refine ⟨?_, renameHeadingNodes_removes children h.2⟩
      by_cases hn : name = "heading"
      · rcases h.1 with h1 | h1
        · exact absurd hn h1
        · simp [hn, h1]
      · simp [hn]

theorem renameHeadingNodes_removes :
    ∀ l : List Node, nodesGood l = true → nodesNoTag "heading" (renameNodes "heading" headingName l) = true
  | [], _ => rfl
  | n :: ns, h => by
      simp only [nodesGood, Bool.and_eq_true] at h
      simp only [renameNodes, nodesNoTag, Bool.and_eq_true]
      exact ⟨renameHeadingNode_removes n h.1, renameHeadingNodes_removes ns h.2⟩

end

/-- `headingName` always produces a string starting with `'h'`, so it never
collides with the marker tag names. -/
theorem headingName_ne (attrs : List (String × String)) (t : String)
    (ht : t.data.head? ≠ some 'h') : headingName attrs ≠ t := by
  intro h
  apply ht
  rw [← h]
  simp [headingName, String.data_append]

/-- `listName` is always `"ol"` or `"ul"`. -/
theorem listName_ne (attrs : List (String × String)) (t : String)
    (h1 : t ≠ "ol") (h2 : t ≠ "ul") : listName attrs ≠ t := by
  unfold listName
  split <;> simp [Ne.symm h1, Ne.symm h2, h1, h2]

theorem nodesNoTag_append (t : String) (a b : List Node) :
    nodesNoTag t (a ++ b) = (nodesNoTag t a && nodesNoTag t b) := by
  induction a with
  | nil => simp [nodesNoTag]
  | cons n ns ih => simp [nodesNoTag, ih, Bool.and_assoc]

theorem nodesGood_append (a b : List Node) :
    nodesGood (a ++ b) = (nodesGood a && nodesGood b) := by
  induction a with
  | nil => simp [nodesGood]
  | cons n ns ih => simp [nodesGood, ih, Bool.and_assoc]

mutual

theorem renameNode_keeps_good (tag : String) (f : List (String × String) → String)
    (hf : ∀ a, f a ≠ "heading") :
    ∀ n : Node, nodeGood n = true → nodeGood (renameNode tag f n) = true
  | .text s, _ => rfl
  | .elem name attrs children, h => by
      simp only [nodeGood, Bool.and_eq_true, Bool.or_eq_true, bne_iff_ne, ne_eq] at h
      simp only [renameNode, nodeGood, Bool.and_eq_true, Bool.or_eq_true, bne_iff_ne, ne_eq]
      refine ⟨?_, renameNodes_keeps_good tag f hf children h.2⟩
      by_cases hn : name = tag
      · simp [hn, hf attrs]
      · simpa [hn] using h.1

theorem renameNodes_keeps_good (tag : String) (f : List (String × String) → String)
    (hf : ∀ a, f a ≠ "heading") :
    ∀ l : List Node, nodesGood l = true → nodesGood (renameNodes tag f l) = true
  | [], _ => rfl
  | n :: ns, h => by
      simp only [nodesGood, Bool.and_eq_true] at h
      simp only [renameNodes, nodesGood, Bool.and_eq_true]
      exact ⟨renameNode_keeps_good tag f hf n h.1, renameNodes_keeps_good tag f hf ns h.2⟩

end

/-- After `_convert_instructions_basic`, no marker tag is left in the
document (on documents whose heading levels are not pathological). -/
theorem convert_basic_no_markers (doc : List Node) (hg : nodesGood doc = true) :
    nodesNoTag "text" (convert_instructions_basic doc) = true ∧
    nodesNoTag "heading" (convert_instructions_basic doc) = true ∧
    nodesNoTag "code" (convert_instructions_basic doc) = true ∧
    nodesNoTag "list" (convert_instructions_basic doc) = true := by
  have hgD : nodesGood (doc ++ [cssBlock]) = true := by
    rw [nodesGood_append, hg]
    rfl
  have hP : ∀ a : List (String × String), (fun _ : List (String × String) => "p") a ≠ "heading" := by
    intro a; show "p" ≠ "heading"; decide
  -- text is removed by pass 2 and never re-created afterwards
  have htext1 : nodesNoTag "text" (renameTextToP (doc ++ [cssBlock])) = true :=
    renameNodes_removes _ _ (by intro a; show "p" ≠ "text"; decide) _
  have hgood1 : nodesGood (renameTextToP (doc ++ [cssBlock])) = true :=
    renameNodes_keeps_good _ _ hP _ hgD
  have hhead2 : nodesNoTag "heading" (renameHeading (renameTextToP (doc ++ [cssBlock]))) = true :=
    renameHeadingNodes_removes _ hgood1
  have htext2 : nodesNoTag "text" (renameHeading (renameTextToP (doc ++ [cssBlock]))) = true :=
    renameNodes_keeps_noTag _ _ _ (fun a => headingName_ne a _ (by decide)) _ htext1
  have htext3 := renameNodes_keeps_noTag "code" "text" (fun _ => "pre")
    (by intro a; show "pre" ≠ "text"; decide) _ htext2
  have hhead3 := renameNodes_keeps_noTag "code" "heading" (fun _ => "pre")
    (by intro a; show "pre" ≠ "heading"; decide) _ hhead2
  have hcode3 : nodesNoTag "code" (renameCodeToPre (renameHeading (renameTextToP (doc ++ [cssBlock])))) = true :=
    renameNodes_removes _ _ (by intro a; show "pre" ≠ "code"; decide) _
  refine ⟨?_, ?_, ?_, ?_⟩
  · exact renameNodes_keeps_noTag "list" "text" listName
      (fun a => listName_ne a _ (by decide) (by decide)) _ htext3
  · exact renameNodes_keeps_noTag "list" "heading" listName
      (fun a => listName_ne a _ (by decide) (by decide)) _ hhead3
  · exact renameNodes_keeps_noTag "list" "code" listName
      (fun a => listName_ne a _ (by decide) (by decide)) _ hcode3
  · exact renameNodes_removes _ _ (fun a => listName_ne a _ (by decide) (by decide)) _

/-- Running `_convert_instructions_basic` a second time renames nothing
(no marker nodes remain), but appends one more copy of the CSS injection
block. -/
theorem convert_basic_second_run (doc : List Node) (hg : nodesGood doc = true) :
    convert_instructions_basic (convert_instructions_basic doc) =
      convert_instructions_basic doc ++ [cssBlock] := by
  obtain ⟨ht, hh, hc, hl⟩ := convert_basic_no_markers doc hg
  have hcss : ∀ t : String, nodesNoTag t [cssBlock] = true → True := fun _ _ => trivial
  have happ : ∀ t : String, nodesNoTag t [cssBlock] = true →
      nodesNoTag t (convert_instructions_basic doc) = true →
      nodesNoTag t (convert_instructions_basic doc ++ [cssBlock]) = true := by
    intro t h1 h2
    rw [nodesNoTag_append, h1, h2]
    rfl
  have ht' := happ "text" (by rfl) ht
  have hh' := happ "heading" (by rfl) hh
  have hc' := happ "code" (by rfl) hc
  have hl' := happ "list" (by rfl) hl
  show renameListTag (renameCodeToPre (renameHeading (renameTextToP
      (convert_instructions_basic doc ++ [cssBlock])))) = _
  rw [renameTextToP, renameNodes_noop _ _ _ ht',
      renameHeading, renameNodes_noop _ _ _ hh',
      renameCodeToPre, renameNodes_noop _ _ _ hc',
      renameListTag, renameNodes_noop _ _ _ hl']

/-! ## `MarkupToHTMLConverter._convert_instructions_images`
(src/coursera/api.py, lines 177-207) -/

/-- `image.attrs.get('assetid')` for a node found by `find_all`. -/
def getAssetId : Node → Option String
  | .elem _ attrs _ => attrGet attrs "assetid"
  | .text _ => none

/-- Lines 186-192: the `assetid` attributes of all `<img>` elements that
carry one, in document order. -/
def imageAssetIds (d : List Node) : List String :=
  (findTagsNodes "img" d).filterMap getAssetId

/-- Standard base64 alphabet. -/
def base64Alphabet : List Char :=
  "ABCDEFGHIJKLMNOPQRSTUVWXYZabcdefghijklmnopqrstuvwxyz0123456789+/".data

def b64Char (n : Nat) : Char := base64Alphabet.getD n 'A'

/-- `base64.b64encode` on a byte list, with `=` padding. -/
def b64encodeChars : List Nat → List Char
  | [] => []
  | [a] => [b64Char (a / 4), b64Char (a % 4 * 16), '=', '=']
  | [a, b] => [b64Char (a / 4), b64Char (a % 4 * 16 + b / 16), b64Char (b % 16 * 4), '=']
  | a :: b :: c :: rest =>
      b64Char (a / 4) :: b64Char (a % 4 * 16 + b / 16) ::
        b64Char (b % 16 * 4 + c / 64) :: b64Char (c % 64) :: b64encodeChars rest

/-- `base64.b64encode(request.content).decode()`. -/
def base64encode (bytes : List Nat) : String := ⟨b64encodeChars bytes⟩

/-- A `session.get` reply: status code, optional `Content-Type` header and
raw body bytes. -/
structure HttpResponse where
  status : Nat
  contentType : Option String
  content : List Nat

/-- One element of the `OPENCOURSE_API_ASSETS_V1_URL` reply: `id`, `name`
and `url` (the latter models the nested `element['url']['url']`). -/
structure V1Asset where
  id : String
  name : String
  url : String

/-- The network collaborators `MarkupToHTMLConverter` uses: `assetsV1` is
`get_page_json(OPENCOURSE_API_ASSETS_V1_URL, id=<param>)['elements']`
keyed by the `id` query parameter, `httpGet` is `session.get`. -/
structure MarkupEnv where
  assetsV1 : String → List V1Asset
  httpGet : String → HttpResponse

/-- Python dict assignment with string keys (insertion-ordered). -/
def pyDictSet {α : Type} (m : List (String × α)) (k : String) (v : α) :
    List (String × α) :=
  match m with
  | [] => [(k, v)]
  | (k', v') :: rest =>
      if k' == k then (k', v) :: rest else (k', v') :: pyDictSet rest k v

/-- Python dict lookup. -/
def pyDictGet {α : Type} (m : List (String × α)) (k : String) : Option α :=
  (m.find? (fun p => p.1 == k)).map (fun p => p.2)

/-- Line 198: `dict((asset['id'], asset) for asset in asset_list['elements'])`. -/
def buildAssetMap (l : List V1Asset) : List (String × V1Asset) :=
  l.foldl (fun m a => pyDictSet m a.id a) []

/-- Lines 200-207 for one image's attributes: resolve the asset id in the
map (`KeyError` when absent, modelled as `none`), fetch the url, and on
status 200 replace the `src` attribute with a base64 data-URI built from
the response's content type (default `image/png`); otherwise leave the
attributes untouched. -/
def inlineImageAttrs (env : MarkupEnv) (m : List (String × V1Asset))
    (attrs : List (String × String)) : Option (List (String × String)) :=
  match attrGet attrs "assetid" with
  | none => some attrs
  | some aid =>
      match pyDictGet m aid with
      | none => none
      | some asset =>
          let resp := env.httpGet (pyStrip asset.url)
          if resp.status == 200 then
            some (attrSet attrs "src"
              ("data:" ++ resp.contentType.getD "image/png" ++ ";base64," ++
                base64encode resp.content))
          else some attrs

mutual

/-- The in-place mutation of all collected `<img>` elements, as a
functional traversal: every `img` element's attributes go through
`inlineImageAttrs`; a missing map entry (Python `KeyError`) aborts the
whole conversion. -/
def inlineImagesNode (env : MarkupEnv) (m : List (String × V1Asset)) :
    Node → Option Node
  | .text s => some (.text s)
  | .elem name attrs children =>
      match inlineImagesNodes env m children with
      | none => none
      | some children' =>
          if name == "img" then
            match inlineImageAttrs env m attrs with
            | none => none
            | some attrs' => some (.elem name attrs' children')
          else some (.elem name attrs children')

def inlineImagesNodes (env : MarkupEnv) (m : List (String × V1Asset)) :
    List Node → Option (List Node)
  | [] => some []
  | n :: ns =>
      match inlineImagesNode env m n, inlineImagesNodes env m ns with
      | some n', some ns' => some (n' :: ns')
      | _, _ => none

end

/-- Embedding of `MarkupToHTMLConverter._convert_instructions_images`
(lines 177-207): collect asset-carrying images; if none, stop; otherwise
resolve all their ids in one batched call (ids joined with `','`), build
the id→asset map, and inline each image. -/
def convert_instructions_images (env : MarkupEnv) (doc : List Node) :
    Option (List Node) :=
  let ids := imageAssetIds doc
  if ids.isEmpty then some doc
  else inlineImagesNodes env
    (buildAssetMap (env.assetsV1 (String.intercalate "," ids))) doc

/-- Embedding of `MarkupToHTMLConverter.__call__` (lines 130-144): basic
marker conversion followed by image inlining (parse/prettify modelled as
identity on the tree). -/
def markup_to_html (env : MarkupEnv) (doc : List Node) : Option (List Node) :=
  convert_instructions_images env (convert_instructions_basic doc)

/-! ### C3 supporting lemmas and theorems -/

theorem findTagsNodes_append (tag : String) (a b : List Node) :
    findTagsNodes tag (a ++ b) = findTagsNodes tag a ++ findTagsNodes tag b := by
  induction a with
  | nil => rfl
  | cons n ns ih => simp [findTagsNodes, ih]

theorem imageAssetIds_append (a b : List Node) :
    imageAssetIds (a ++ b) = imageAssetIds a ++ imageAssetIds b := by
  simp [imageAssetIds, findTagsNodes_append, List.filterMap_append]

mutual

theorem renameNode_imgIds (tag : String) (f : List (String × String) → String)
    (htag : tag ≠ "img") (hf : ∀ a, f a ≠ "img") :
    ∀ n : Node, (findTagsNode "img" (renameNode tag f n)).filterMap getAssetId
      = (findTagsNode "img" n).filterMap getAssetId
  | .text s => rfl
  | .elem name attrs children => by
      simp only [renameNode, findTagsNode, List.filterMap_append]
      rw [renameNodes_imgIds tag f htag hf children]
      congr 1
      by_cases hn : name = tag
      · have h1 : (if name == tag then f attrs else name) = f attrs := by simp [hn]
        rw [h1]
        have h2 : (f attrs == "img") = false := by simp [hf attrs]
        have h3 : (name == "img") = false := by simp [hn, htag]
        simp [h2, h3]
      · have h1 : (if name == tag then f attrs else name) = name := by simp [hn]
        rw [h1]
        by_cases hni : name = "img"
        · simp [hni, List.filterMap_cons, getAssetId]
        · simp [hni]

theorem renameNodes_imgIds (tag : String) (f : List (String × String) → String)
    (htag : tag ≠ "img") (hf : ∀ a, f a ≠ "img") :
    ∀ l : List Node, (findTagsNodes "img" (renameNodes tag f l)).filterMap getAssetId
      = (findTagsNodes "img" l).filterMap getAssetId
  | [] => rfl
  | n :: ns => by
      simp only [renameNodes, findTagsNodes, List.filterMap_append]
      rw [renameNode_imgIds tag f htag hf n, renameNodes_imgIds tag f htag hf ns]

end

/-- The basic marker conversion neither creates nor destroys
asset-carrying images; in particular a document without them stays
without them. -/
theorem imageAssetIds_basic (doc : List Node) (h : imageAssetIds doc = []) :
    imageAssetIds (convert_instructions_basic doc) = [] := by
  unfold convert_instructions_basic renameListTag renameCodeToPre renameHeading renameTextToP
  unfold imageAssetIds
  rw [renameNodes_imgIds "list" listName (by decide)
        (fun a => listName_ne a _ (by decide) (by decide)),
      renameNodes_imgIds "code" (fun _ => "pre") (by decide)
        (by intro a; show "pre" ≠ "img"; decide),
      renameNodes_imgIds "heading" headingName (by decide)
        (fun a => headingName_ne a _ (by decide)),
      renameNodes_imgIds "text" (fun _ => "p") (by decide)
        (by intro a; show "p" ≠ "img"; decide)]
  have := imageAssetIds_append doc [cssBlock]
  unfold imageAssetIds at this h
  rw [this, h]
  rfl

/-- A trivial network environment (no assets resolve, every fetch fails). -/
def emptyMarkupEnv : MarkupEnv :=
  { assetsV1 := fun _ => [], httpGet := fun _ => ⟨404, none, []⟩ }

/-- **C3 (amended)**: on any zero-image document (with non-pathological
heading levels) the conversion succeeds, the second run finds no marker
nodes left to rename and renames nothing, but it appends one more copy of
the injected CSS block, so running the conversion twice differs from
running it once by exactly that extra CSS block — the conversion is not
idempotent. -/
theorem markup_to_html_second_run_adds_css (env : MarkupEnv) (doc : List Node)
    (hg : nodesGood doc = true) (hi : imageAssetIds doc = []) :
    markup_to_html env doc = some (convert_instructions_basic doc) ∧
    markup_to_html env (convert_instructions_basic doc)
      = some (convert_instructions_basic doc ++ [cssBlock]) ∧
    convert_instructions_basic doc ++ [cssBlock] ≠ convert_instructions_basic doc := by
  have hids : imageAssetIds (convert_instructions_basic doc) = [] :=
    imageAssetIds_basic doc hi
  refine ⟨?_, ?_, ?_⟩
  · simp [markup_to_html, convert_instructions_images, hids]
  · have hids2 : imageAssetIds (convert_instructions_basic doc ++ [cssBlock]) = [] := by
      rw [imageAssetIds_append, hids]
      rfl
    simp [markup_to_html, convert_basic_second_run doc hg,
          convert_instructions_images, hids2]
  · intro h
    have hlen := congrArg List.length h
    simp at hlen

/-- **C3 witness**: the amended statement holds at the empty document in
the trivial environment. -/
theorem markup_to_html_second_run_adds_css_witness :
    nodesGood ([] : List Node) = true ∧ imageAssetIds ([] : List Node) = [] ∧
    (markup_to_html emptyMarkupEnv [] = some (convert_instructions_basic []) ∧
     markup_to_html emptyMarkupEnv (convert_instructions_basic [])
       = some (convert_instructions_basic [] ++ [cssBlock]) ∧
     convert_instructions_basic [] ++ [cssBlock] ≠ convert_instructions_basic []) :=
  ⟨rfl, rfl, markup_to_html_second_run_adds_css emptyMarkupEnv [] rfl rfl⟩

/-- **C3 counterexample**: applying the converter twice does not equal
applying it once — on the empty document (zero images) one application
yields the CSS block alone, a second application appends a second copy. -/
theorem markup_to_html_not_idempotent :
    markup_to_html emptyMarkupEnv [] = some [cssBlock] ∧
    markup_to_html emptyMarkupEnv [cssBlock] = some [cssBlock, cssBlock] ∧
    some [cssBlock, cssBlock] ≠ some [cssBlock] := by
  refine ⟨rfl, rfl, ?_⟩
  intro h
  have hlen := congrArg (fun o => (Option.map List.length o)) h
  simp at hlen

/-! ### C9: graceful image inlining -/

mutual

/-- Declarative per-image traversal (the claim's wording): every `img`
element's attributes are rewritten by `g`, every other node is untouched,
and the conversion always succeeds. -/
def mapImagesNode (g : List (String × String) → List (String × String)) : Node → Node
  | .text s => .text s
  | .elem name attrs children =>
      .elem name (if name == "img" then g attrs else attrs) (mapImagesNodes g children)

def mapImagesNodes (g : List (String × String) → List (String × String)) :
    List Node → List Node
  | [] => []
  | n :: ns => mapImagesNode g n :: mapImagesNodes g ns

end

/-- The claim's per-image rule: an image without an asset id is untouched;
otherwise, when fetching its resolved url answers HTTP 200, its `src`
becomes a base64 data-URI built with the response's content type
(defaulting to `image/png` when the header is absent), and on any other
status the attributes stay unchanged. -/
def specImageUpdate (env : MarkupEnv) (urlOf : String → String)
    (attrs : List (String × String)) : List (String × String) :=
  match attrGet attrs "assetid" with
  | none => attrs
  | some aid =>
      let resp := env.httpGet (urlOf aid)
      if resp.status == 200 then
        attrSet attrs "src"
          ("data:" ++ resp.contentType.getD "image/png" ++ ";base64," ++
            base64encode resp.content)
      else attrs

/-- The resolved (stripped) url an asset map gives an asset id. -/
def mapUrlOf (m : List (String × V1Asset)) (aid : String) : String :=
  pyStrip (((pyDictGet m aid).map V1Asset.url).getD "")

mutual

theorem inlineImagesNode_eq_map (env : MarkupEnv) (m : List (String × V1Asset)) :
    ∀ n : Node,
      (∀ aid ∈ (findTagsNode "img" n).filterMap getAssetId, (pyDictGet m aid).isSome = true) →
      inlineImagesNode env m n = some (mapImagesNode (specImageUpdate env (mapUrlOf m)) n)
  | .text s, _ => rfl
  | .elem name attrs children, hcov => by
      have hcovc : ∀ aid ∈ (findTagsNodes "img" children).filterMap getAssetId,
          (pyDictGet m aid).isSome = true := by
        intro aid ha
        apply hcov
        simp only [findTagsNode, List.filterMap_append]
        exact List.mem_append_right _ ha
      simp only [inlineImagesNode, inlineImagesNodes_eq_map env m children hcovc,
                 mapImagesNode]
      by_cases hn : name = "img"
      · simp only [hn, beq_self_eq_true, if_true, if_pos]
        unfold inlineImageAttrs specImageUpdate
        cases ha : attrGet attrs "assetid" with
        | none => rfl
        | some aid =>
            have hmem : aid ∈ (findTagsNode "img" (Node.elem name attrs children)).filterMap getAssetId := by
              simp [findTagsNode, hn, List.filterMap_cons, getAssetId, ha, List.filterMap_append]
            have hsome := hcov aid hmem
            cases hg : pyDictGet m aid with
            | none => rw [hg] at hsome; simp at hsome
            | some asset =>
                have hurl : mapUrlOf m aid = pyStrip asset.url := by
                  simp [mapUrlOf, hg]
                simp only [hg, hurl]
                by_cases hs : (env.httpGet (pyStrip asset.url)).status == 200 <;> simp [hs]
      · simp [hn]

theorem inlineImagesNodes_eq_map (env : MarkupEnv) (m : List (String × V1Asset)) :
    ∀ l : List Node,
      (∀ aid ∈ (findTagsNodes "img" l).filterMap getAssetId, (pyDictGet m aid).isSome = true) →
      inlineImagesNodes env m l = some (mapImagesNodes (specImageUpdate env (mapUrlOf m)) l)
  | [], _ => rfl
  | n :: ns, hcov => by
      have h1 : ∀ aid ∈ (findTagsNode "img" n).filterMap getAssetId,
          (pyDictGet m aid).isSome = true := by
        intro aid ha
        apply hcov
        simp only [findTagsNodes, List.filterMap_append]
        exact List.mem_append_left _ ha
      have h2 : ∀ aid ∈ (findTagsNodes "img" ns).filterMap getAssetId,
          (pyDictGet m aid).isSome = true := by
        intro aid ha
        apply hcov
        simp only [findTagsNodes, List.filterMap_append]
        exact List.mem_append_right _ ha
      simp only [inlineImagesNodes, inlineImagesNode_eq_map env m n h1,
                 inlineImagesNodes_eq_map env m ns h2, mapImagesNodes]

end

mutual

theorem mapImagesNode_id (g : List (String × String) → List (String × String))
    (hg : ∀ attrs, attrGet attrs "assetid" = none → g attrs = attrs) :
    ∀ n : Node, (findTagsNode "img" n).filterMap getAssetId = [] →
      mapImagesNode g n = n
  | .text s, _ => rfl
  | .elem name attrs children, h => by
      rw [findTagsNode, List.filterMap_append, List.append_eq_nil] at h
      have hch := mapImagesNodes_id g hg children h.2
      simp only [mapImagesNode, hch]
      by_cases hn : name = "img"
      · have hattr : attrGet attrs "assetid" = none := by
          by_contra hne
          cases ha : attrGet attrs "assetid" with
          | none => exact hne ha
          | some aid =>
              have := h.1
              simp [hn, List.filterMap_cons, getAssetId, ha] at this
        simp [hn, hg attrs hattr]
      · simp [hn]

theorem mapImagesNodes_id (g : List (String × String) → List (String × String))
    (hg : ∀ attrs, attrGet attrs "assetid" = none → g attrs = attrs) :
    ∀ l : List Node, (findTagsNodes "img" l).filterMap getAssetId = [] →
      mapImagesNodes g l = l
  | [], _ => rfl
  | n :: ns, h => by
      rw [findTagsNodes, List.filterMap_append, List.append_eq_nil] at h
      simp only [mapImagesNodes, mapImagesNode_id g hg n h.1, mapImagesNodes_id g hg ns h.2]

end

/-- **C9**: when every collected image asset id resolves in the batched
asset reply, `_convert_instructions_images` succeeds and equals the
declarative per-image map; under that map an image fetched with HTTP 200
gets its `src` replaced by a base64 data-URI using the response's
Content-Type (default `image/png` when absent), and an image whose fetch
returns any other status is left unchanged, silently. -/
theorem convert_images_degrades_gracefully (env : MarkupEnv) (doc : List Node)
    (hcov : ∀ aid ∈ imageAssetIds doc,
      (pyDictGet (buildAssetMap (env.assetsV1 (String.intercalate "," (imageAssetIds doc)))) aid).isSome = true) :
    convert_instructions_images env doc =
      some (mapImagesNodes
        (specImageUpdate env
          (mapUrlOf (buildAssetMap (env.assetsV1 (String.intercalate "," (imageAssetIds doc))))))
        doc) ∧
    (∀ u attrs, attrGet attrs "assetid" = none → specImageUpdate env u attrs = attrs) ∧
    (∀ u attrs aid, attrGet attrs "assetid" = some aid →
      (env.httpGet (u aid)).status ≠ 200 → specImageUpdate env u attrs = attrs) ∧
    (∀ u attrs aid, attrGet attrs "assetid" = some aid →
      (env.httpGet (u aid)).status = 200 →
      specImageUpdate env u attrs = attrSet attrs "src"
        ("data:" ++ (env.httpGet (u aid)).contentType.getD "image/png" ++ ";base64," ++
          base64encode (env.httpGet (u aid)).content)) := by
  refine ⟨?_, ?_, ?_, ?_⟩
  · by_cases hids : (imageAssetIds doc).isEmpty
    · have hnil : imageAssetIds doc = [] := by
        cases h : imageAssetIds doc with
        | nil => rfl
        | cons a l => rw [h] at hids; simp [List.isEmpty] at hids
      have hmap := mapImagesNodes_id
        (specImageUpdate env
          (mapUrlOf (buildAssetMap (env.assetsV1 (String.intercalate "," (imageAssetIds doc))))))
        (fun attrs h => by simp [specImageUpdate, h]) doc hnil
      simp [convert_instructions_images, hids, hmap]
    · have := inlineImagesNodes_eq_map env
        (buildAssetMap (env.assetsV1 (String.intercalate "," (imageAssetIds doc)))) doc hcov
      simp [convert_instructions_images, hids, this]
  · intro u attrs h
    simp [specImageUpdate, h]
  · intro u attrs aid ha hs
    simp [specImageUpdate, ha, hs]
  · intro u attrs aid ha hs
    simp [specImageUpdate, ha, hs]

/-- Concrete environment for the C9 witness: asset `a1` resolves to a url
whose fetch succeeds with a `Content-Type`, asset `a2` to one whose fetch
fails with 404. -/
def env9 : MarkupEnv :=
  { assetsV1 := fun _ => [⟨"a1", "n1", "u1"⟩, ⟨"a2", "n2", "u2"⟩],
    httpGet := fun u => if u == "u1" then ⟨200, some "image/jpeg", [77, 77]⟩
                        else ⟨404, none, []⟩ }

/-- Concrete two-image document for the C9 witness. -/
def doc9 : List Node :=
  [Node.elem "img" [("assetid", "a1")] [], Node.elem "img" [("assetid", "a2")] []]

/-- **C9 witness**: on a concrete document with one succeeding and one
failing image fetch, the conversion succeeds, the succeeding image's src
becomes the data-URI `data:image/jpeg;base64,TU0=` and the failing one is
untouched. -/
theorem convert_images_degrades_gracefully_witness :
    (∀ aid ∈ imageAssetIds doc9,
      (pyDictGet (buildAssetMap (env9.assetsV1 (String.intercalate "," (imageAssetIds doc9)))) aid).isSome = true) ∧
    convert_instructions_images env9 doc9 =
      some (mapImagesNodes
        (specImageUpdate env9
          (mapUrlOf (buildAssetMap (env9.assetsV1 (String.intercalate "," (imageAssetIds doc9))))))
        doc9) ∧
    convert_instructions_images env9 doc9 =
      some [Node.elem "img" [("assetid", "a1"), ("src", "data:image/jpeg;base64,TU0=")] [],
            Node.elem "img" [("assetid", "a2")] []] :=
  ⟨by decide, (convert_images_degrades_gracefully env9 doc9 (by decide)).1, rfl⟩

/-! ## C6: `QuizExamToMarkupConverter` (src/coursera/api.py, lines 39-123) -/

/-- One answer option; `value` is the parsed
`option['display']['definition']['value']` markup. -/
structure QuizOption where
  value : List Node

/-- One quiz/exam question, carrying exactly the fields the converter
reads: `question_json['question']['type']`,
`question_json['variant']['definition']['prompt']['definition']['value']`
and `question_json['variant']['definition'].get('options', [])`. -/
structure QuizQuestion where
  qtype : String
  prompt : String
  options : List QuizOption

def KNOWN_QUESTION_TYPES : List String :=
  ["mcq", "checkbox", "singleNumeric", "textExactMatch"]

def KNOWN_INPUT_TYPES : List String := ["textExactMatch", "singleNumeric"]

/-- The numbered header `'<h3>Question %d</h3>' % (question_index + 1)`. -/
def questionHeader (k : Nat) : String := "<h3>Question " ++ toString k ++ "</h3>"

/-- The single line produced by `_generate_input_field`. -/
def inputFieldLine : String :=
  "<form><label>Enter answer here:<input type=\"text\" name=\"\"><br></label></form>"

/-- `QuizExamToMarkupConverter._generate_input_field`. -/
def generate_input_field : List String := [inputFieldLine]

/-- `{'mcq': 'radio', 'checkbox': 'checkbox'}.get(question_type, '')`. -/
def inputTypeFor (qtype : String) : String :=
  if qtype == "mcq" then "radio" else if qtype == "checkbox" then "checkbox" else ""

/-- `QuizExamToMarkupConverter._convert_options` (lines 97-113): nothing
for an empty option list, otherwise a form wrapping one labelled input
line per option; each option's text has its `<text>` tags renamed to
`<span>` (`_replace_tag`) and is re-serialized. -/
def convert_options (question_index : Nat) (options : List QuizOption)
    (input_type : String) : List String :=
  if options.isEmpty then []
  else "<form>" ::
    options.map (fun o =>
      "<label><input type=\"" ++ input_type ++ "\" name=\"" ++ toString question_index ++
        "\">" ++ renderNodes (renameNodes "text" (fun _ => "span") o.value) ++
        "<br></label>")
    ++ ["</form>"]

/-- The enumerated loop of `QuizExamToMarkupConverter.__call__`
(lines 55-93), producing the emitted markup lines (first component) and
the `logging.info` diagnostics for unknown question types (second
component). The function is total: an unknown question type is logged,
still gets its header and prompt, receives no input field, and never
aborts the conversion. -/
def quiz_convert_from (idx : Nat) : List QuizQuestion → List String × List String
  | [] => ([], [])
  | q :: rest =>
      let tail := quiz_convert_from (idx + 1) rest
      (questionHeader (idx + 1) ::
        q.prompt ::
        ((if KNOWN_INPUT_TYPES.contains q.qtype then generate_input_field else []) ++
          convert_options idx q.options (inputTypeFor q.qtype) ++
          ["<hr>"] ++ tail.1),
       (if KNOWN_QUESTION_TYPES.contains q.qtype then []
        else ["Unknown question type: " ++ q.qtype]) ++ tail.2)

/-- `QuizExamToMarkupConverter.__call__`: the final `'\n'.join(result)`. -/
def quiz_to_markup (qs : List QuizQuestion) : String :=
  String.intercalate "\n" (quiz_convert_from 0 qs).1

/-- A line is a question header when it starts with `"<h3>Question "` and
ends with `"</h3>"`. -/
def isQuestionHeader (s : String) : Bool :=
  strStarts s "<h3>Question " && strEnds s "</h3>"

/-! ### C6 helper lemmas -/

theorem append_ne_of_not_starts (a t b : String) (hab : strStarts b a = false) :
    a ++ t ≠ b := by
  intro h
  rw [← h] at hab
  unfold strStarts at hab
  rw [String.data_append] at hab
  have hpre : a.data.isPrefixOf (a.data ++ t.data) = true := by
    rw [List.isPrefixOf_iff_prefix]
    exact List.prefix_append _ _
  exact absurd (hpre.symm.trans hab) (by decide)

theorem strStarts_append_false (a t p : String) (h : strStarts a p = false)
    (hlen : p.data.length ≤ a.data.length) : strStarts (a ++ t) p = false := by
  unfold strStarts at h ⊢
  rw [String.data_append]
  by_contra hb
  rw [Bool.not_eq_false, List.isPrefixOf_iff_prefix] at hb
  have heq : p.data = (a.data ++ t.data).take p.data.length :=
    List.prefix_iff_eq_take.mp hb
  rw [List.take_append_eq_append_take, Nat.sub_eq_zero_of_le hlen] at heq
  simp only [List.take_zero, List.append_nil] at heq
  have hpre : p.data <+: a.data := heq ▸ List.take_prefix _ _
  rw [← List.isPrefixOf_iff_prefix] at hpre
  exact absurd (hpre.symm.trans h) (by decide)

theorem isQuestionHeader_header (k : Nat) :
    isQuestionHeader (questionHeader k) = true := by
  unfold isQuestionHeader questionHeader strStarts strEnds
  have hd : ("<h3>Question " ++ toString k ++ "</h3>").data
      = "<h3>Question ".data ++ ((toString k).data ++ "</h3>".data) := by
    rw [String.data_append, String.data_append, List.append_assoc]
  rw [hd, Bool.and_eq_true]
  constructor
  · rw [List.isPrefixOf_iff_prefix]
    exact List.prefix_append _ _
  · rw [List.isPrefixOf_iff_prefix, List.reverse_append, List.reverse_append,
        List.append_assoc]
    exact List.prefix_append _ _

/-- Every markup line other than a header and a prompt is not
header-shaped: the option lines. -/
theorem isQuestionHeader_label_line (t : String) :
    isQuestionHeader ("<label><input type=\"" ++ t) = false := by
  unfold isQuestionHeader
  rw [strStarts_append_false "<label><input type=\"" t "<h3>Question "
      (by decide) (by decide)]
  rfl

/-- No line produced by `_convert_options` is header-shaped. -/
theorem convert_options_no_header (i : Nat) (options : List QuizOption)
    (it : String) :
    ∀ s ∈ convert_options i options it, isQuestionHeader s = false := by
  intro s hs
  unfold convert_options at hs
  by_cases he : options.isEmpty
  · rw [if_pos he] at hs
    simp at hs
  · rw [if_neg he] at hs
    rcases List.mem_cons.mp hs with h1 | h2
    · subst h1
      decide
    · rcases List.mem_append.mp h2 with h3 | h4
      · obtain ⟨o, _, ho⟩ := List.mem_map.mp h3
        rw [← ho]
        simp only [String.append_assoc]
        exact isQuestionHeader_label_line _
      · rw [List.mem_singleton.mp h4]
        decide

/-- No line produced by `_convert_options` is the answer input field. -/
theorem convert_options_no_input_field (i : Nat) (options : List QuizOption)
    (it : String) :
    ∀ s ∈ convert_options i options it, s ≠ inputFieldLine := by
  intro s hs
  unfold convert_options at hs
  by_cases he : options.isEmpty
  · rw [if_pos he] at hs
    simp at hs
  · rw [if_neg he] at hs
    rcases List.mem_cons.mp hs with h1 | h2
    · subst h1
      decide
    · rcases List.mem_append.mp h2 with h3 | h4
      · obtain ⟨o, _, ho⟩ := List.mem_map.mp h3
        rw [← ho]
        simp only [String.append_assoc]
        exact append_ne_of_not_starts _ _ _ (by decide)
      · rw [List.mem_singleton.mp h4]
        decide

theorem quiz_filter_headers (qs : List QuizQuestion) :
    ∀ idx, (∀ q ∈ qs, isQuestionHeader q.prompt = false) →
      ((quiz_convert_from idx qs).1).filter isQuestionHeader
        = (List.range' (idx + 1) qs.length).map questionHeader := by
  induction qs with
  | nil => intro idx _; rfl
  | cons q rest ih =>
      intro idx hp
      have hq := hp q (List.mem_cons_self _ _)
      have hrest : ∀ p ∈ rest, isQuestionHeader p.prompt = false :=
        fun p hm => hp p (List.mem_cons_of_mem _ hm)
      have hopts : List.filter isQuestionHeader
          (convert_options idx q.options (inputTypeFor q.qtype)) = [] := by
        refine List.filter_eq_nil_iff.mpr ?_
        intro s hs
        simp [convert_options_no_header idx q.options (inputTypeFor q.qtype) s hs]
      have hif : List.filter isQuestionHeader
          (if KNOWN_INPUT_TYPES.contains q.qtype then generate_input_field else []) = [] := by
        cases hk : KNOWN_INPUT_TYPES.contains q.qtype
        · simp
        · simp only [if_true]
          decide
      have hhr : List.filter isQuestionHeader ["<hr>"] = [] := by decide
      simp only [quiz_convert_from, List.filter_cons, List.filter_append,
                 isQuestionHeader_header, hq, hopts, hif, hhr, if_true,
                 Bool.false_eq_true, if_false, List.nil_append, List.append_nil,
                 ih (idx + 1) hrest]
      rw [List.length_cons, List.range'_succ]
      simp

theorem questionHeader_ne_inputField (k : Nat) : questionHeader k ≠ inputFieldLine := by
  unfold questionHeader
  simp only [String.append_assoc]
  exact append_ne_of_not_starts _ _ _ (by decide)

theorem quiz_count_input_fields (qs : List QuizQuestion) :
    ∀ idx, (∀ q ∈ qs, q.prompt ≠ inputFieldLine) →
      ((quiz_convert_from idx qs).1).count inputFieldLine
        = (qs.filter (fun q => KNOWN_INPUT_TYPES.contains q.qtype)).length := by
  induction qs with
  | nil => intro idx _; rfl
  | cons q rest ih =>
      intro idx hp
      have hq := hp q (List.mem_cons_self _ _)
      have hrest : ∀ p ∈ rest, p.prompt ≠ inputFieldLine :=
        fun p hm => hp p (List.mem_cons_of_mem _ hm)
      have hopts : List.count inputFieldLine
          (convert_options idx q.options (inputTypeFor q.qtype)) = 0 := by
        rw [List.count_eq_zero]
        intro hmem
        exact convert_options_no_input_field idx q.options (inputTypeFor q.qtype) _ hmem rfl
      have h1 : (inputFieldLine == questionHeader (idx + 1)) = false :=
        beq_eq_false_iff_ne.mpr (fun h => questionHeader_ne_inputField _ h.symm)
      have h2 : (inputFieldLine == q.prompt) = false :=
        beq_eq_false_iff_ne.mpr (fun h => hq h.symm)
      have hhr : List.count inputFieldLine ["<hr>"] = 0 := by decide
      have hif : List.count inputFieldLine
          (if KNOWN_INPUT_TYPES.contains q.qtype then generate_input_field else [])
          = (if KNOWN_INPUT_TYPES.contains q.qtype then 1 else 0) := by
        cases hk : KNOWN_INPUT_TYPES.contains q.qtype
        · simp
        · simp only [if_true]
          decide
      simp only [quiz_convert_from, List.count_cons, List.count_append, h1, h2,
                 hopts, hhr, hif, ih (idx + 1) hrest, List.filter_cons]
      cases hk : KNOWN_INPUT_TYPES.contains q.qtype <;>
        simp [hk, questionHeader_ne_inputField, hq] <;> omega

theorem quiz_header_prompt_adjacent (qs : List QuizQuestion) :
    ∀ idx i (h : i < qs.length),
      ∃ l r, (quiz_convert_from idx qs).1
        = l ++ questionHeader (idx + i + 1) :: (qs.get ⟨i, h⟩).prompt :: r := by
  induction qs with
  | nil => intro idx i h; exact absurd h (by simp)
  | cons q rest ih =>
      intro idx i h
      cases i with
      | zero =>
          refine ⟨[], (if KNOWN_INPUT_TYPES.contains q.qtype then generate_input_field else []) ++
            convert_options idx q.options (inputTypeFor q.qtype) ++
            ["<hr>"] ++ (quiz_convert_from (idx + 1) rest).1, ?_⟩
          simp [quiz_convert_from]
      | succ j =>
          have hj : j < rest.length := Nat.lt_of_succ_lt_succ h
          obtain ⟨l, r, hlr⟩ := ih (idx + 1) j hj
          refine ⟨questionHeader (idx + 1) :: q.prompt ::
            ((if KNOWN_INPUT_TYPES.contains q.qtype then generate_input_field else []) ++
              convert_options idx q.options (inputTypeFor q.qtype) ++ ["<hr>"] ++ l), r, ?_⟩
          have harith : idx + 1 + j + 1 = idx + (j + 1) + 1 := by omega
          simp only [quiz_convert_from, List.get, hlr, harith, List.append_assoc,
                     List.cons_append]

theorem quiz_log_unknown (qs : List QuizQuestion) :
    ∀ idx, (quiz_convert_from idx qs).2
      = (qs.filter (fun q => !(KNOWN_QUESTION_TYPES.contains q.qtype))).map
          (fun q => "Unknown question type: " ++ q.qtype) := by
  induction qs with
  | nil => intro idx; rfl
  | cons q rest ih =>
      intro idx
      simp only [quiz_convert_from, ih (idx + 1), List.filter_cons]
      cases hk : KNOWN_QUESTION_TYPES.contains q.qtype <;> simp [hk]

/-- **C6**: for every question list (of any mix of known and unknown
types) whose prompts are not themselves header- or input-field-shaped
lines, the produced markup contains exactly the headers `Question 1`
through `Question N` in input order (the header-shaped lines of the
output are precisely `questionHeader 1, …, questionHeader N`), each
header is immediately followed by its question's prompt text, a rendered
answer input field appears exactly once per question whose type is a
known input-accepting type and never otherwise, and unknown question
types are logged while still consuming their slot --- the conversion is
total and never raises. -/
theorem quiz_rendering_headers_inputs_log (qs : List QuizQuestion)
    (hp : ∀ q ∈ qs, isQuestionHeader q.prompt = false)
    (hp2 : ∀ q ∈ qs, q.prompt ≠ inputFieldLine) :
    ((quiz_convert_from 0 qs).1).filter isQuestionHeader
      = (List.range' 1 qs.length).map questionHeader ∧
    ((quiz_convert_from 0 qs).1).count inputFieldLine
      = (qs.filter (fun q => KNOWN_INPUT_TYPES.contains q.qtype)).length ∧
    (∀ i (h : i < qs.length), ∃ l r, (quiz_convert_from 0 qs).1
      = l ++ questionHeader (i + 1) :: (qs.get ⟨i, h⟩).prompt :: r) ∧
    (quiz_convert_from 0 qs).2
      = (qs.filter (fun q => !(KNOWN_QUESTION_TYPES.contains q.qtype))).map
          (fun q => "Unknown question type: " ++ q.qtype) := by
  refine ⟨quiz_filter_headers qs 0 hp, quiz_count_input_fields qs 0 hp2, ?_,
          quiz_log_unknown qs 0⟩
  intro i h
  simpa using quiz_header_prompt_adjacent qs 0 i h

/-- Concrete mixed question list for the C6 witness: a known `mcq` with
one option, an unknown `weird` type, and a known input-accepting
`textExactMatch`. -/
def qs6 : List QuizQuestion :=
  [⟨"mcq", "What is two plus two?", [⟨[Node.elem "text" [] [Node.text "four"]]⟩]⟩,
   ⟨"weird", "Mystery prompt", []⟩,
   ⟨"textExactMatch", "Type the answer", []⟩]

/-- **C6 witness**: the theorem instantiated at the concrete mixed list:
exactly headers 1..3 in order, one input field (for the single
input-accepting question), and one logged unknown type. -/
theorem quiz_rendering_headers_inputs_log_witness :
    (∀ q ∈ qs6, isQuestionHeader q.prompt = false) ∧
    (∀ q ∈ qs6, q.prompt ≠ inputFieldLine) ∧
    (((quiz_convert_from 0 qs6).1).filter isQuestionHeader
        = (List.range' 1 qs6.length).map questionHeader ∧
     ((quiz_convert_from 0 qs6).1).count inputFieldLine
        = (qs6.filter (fun q => KNOWN_INPUT_TYPES.contains q.qtype)).length ∧
     (∀ i (h : i < qs6.length), ∃ l r, (quiz_convert_from 0 qs6).1
        = l ++ questionHeader (i + 1) :: (qs6.get ⟨i, h⟩).prompt :: r) ∧
     (quiz_convert_from 0 qs6).2
        = (qs6.filter (fun q => !(KNOWN_QUESTION_TYPES.contains q.qtype))).map
            (fun q => "Unknown question type: " ++ q.qtype)) :=
  ⟨by decide, by decide,
   quiz_rendering_headers_inputs_log qs6 (by decide) (by decide)⟩

/-! ## C4/C5/C10: `CourseraOnDemand._extract_videos_and_subtitles_from_lecture`
(src/coursera/api.py, lines 592-655) -/

/-- One element of `dom['sources']`: the resolution label and the
`formatSources` format→url dict. -/
structure VideoSource where
  resolution : String
  formatSources : List (String × String)
deriving DecidableEq

/-- The parts of the `OPENCOURSE_VIDEO_URL` reply the function reads:
`sources`, and the two optional subtitle tracks (`subtitles`,
`subtitlesTxt`), each a language→url dict. -/
structure VideoDom where
  sources : List VideoSource
  subtitles : Option (List (String × String))
  subtitlesTxt : Option (List (String × String))
deriving DecidableEq

/-- Modelled from the spec: `make_coursera_absolute_url` lives in
`coursera/utils.py`, which is not under `src/`; the spec says subtitle
urls "may be relative and must be resolved against a known base".
Modelled as prefixing the site base unless the url is already absolute. -/
def make_coursera_absolute_url (url : String) : String :=
  if strStarts url "http" then url else "https://www.coursera.org" ++ url

/-- Python string `<=`: lexicographic comparison by code point. -/
def strLeB : List Char → List Char → Bool
  | [], _ => true
  | _ :: _, [] => false
  | a :: as, b :: bs =>
      if a.toNat < b.toNat then true
      else if b.toNat < a.toNat then false
      else strLeB as bs

/-- Python `s <= t` on strings. -/
def pyStrLe (s t : String) : Bool := strLeB s.data t.data

theorem strLeB_total : ∀ a b : List Char, strLeB a b = true ∨ strLeB b a = true
  | [], _ => Or.inl rfl
  | _ :: _, [] => Or.inr rfl
  | a :: as, b :: bs => by
      by_cases h1 : a.toNat < b.toNat
      · left
        simp [strLeB, h1]
      · by_cases h2 : b.toNat < a.toNat
        · right
          simp [strLeB, h2]
        · rcases strLeB_total as bs with h | h <;> [left; right] <;>
            simp [strLeB, h1, h2, h]

theorem strLeB_trans : ∀ a b c : List Char,
    strLeB a b = true → strLeB b c = true → strLeB a c = true
  | [], _, _, _, _ => rfl
  | _ :: _, [], _, h, _ => by simp [strLeB] at h
  | _ :: _, _ :: _, [], _, h => by simp [strLeB] at h
  | a :: as, b :: bs, c :: cs, h1, h2 => by
      simp only [strLeB] at h1 h2 ⊢
      by_cases hab : a.toNat < b.toNat <;> by_cases hbc : b.toNat < c.toNat
      · have hac : a.toNat < c.toNat := Nat.lt_trans hab hbc
        simp [hac]
      · have hcb : ¬b.toNat < c.toNat := hbc
        simp only [hbc, if_false, if_neg hbc] at h2
        by_cases hcb2 : c.toNat < b.toNat
        · simp [hcb2] at h2
        · have hbc_eq : b.toNat = c.toNat := Nat.le_antisymm
            (Nat.le_of_not_lt hcb2) (Nat.le_of_not_lt hbc)
          have hac : a.toNat < c.toNat := hbc_eq ▸ hab
          simp [hac]
      · simp only [if_neg hab] at h1
        by_cases hba : b.toNat < a.toNat
        · simp [hba] at h1
        · have hab_eq : a.toNat = b.toNat := Nat.le_antisymm
            (Nat.le_of_not_lt hba) (Nat.le_of_not_lt hab)
          have hac : a.toNat < c.toNat := hab_eq ▸ hbc
          simp [hac]
      · simp only [if_neg hab] at h1
        simp only [if_neg hbc] at h2
        by_cases hba : b.toNat < a.toNat
        · simp [hba] at h1
        · by_cases hcb : c.toNat < b.toNat
          · simp [hcb] at h2
          · have hab_eq : a.toNat = b.toNat := Nat.le_antisymm
              (Nat.le_of_not_lt hba) (Nat.le_of_not_lt hab)
            have hbc_eq : b.toNat = c.toNat := Nat.le_antisymm
              (Nat.le_of_not_lt hcb) (Nat.le_of_not_lt hbc)
            have hac1 : ¬a.toNat < c.toNat := by omega
            have hac2 : ¬c.toNat < a.toNat := by omega
            simp only [if_neg hba] at h1
            simp only [if_neg hcb] at h2
            simp only [if_neg hac1, if_neg hac2]
            exact strLeB_trans as bs cs h1 h2

/-- The ascending key order of line 605
(`sources.sort(key=lambda src: src['resolution'])`), using Python's
lexicographic string comparison. -/
def resLe (a b : VideoSource) : Prop := pyStrLe a.resolution b.resolution = true

instance : DecidableRel resLe :=
  fun a b => inferInstanceAs (Decidable (pyStrLe a.resolution b.resolution = true))

instance : IsTotal VideoSource resLe :=
  ⟨fun a b => strLeB_total a.resolution.data b.resolution.data⟩

instance : IsTrans VideoSource resLe :=
  ⟨fun _ _ _ => strLeB_trans _ _ _⟩

/-- Lines 605-606: stable ascending sort by the resolution label, then
`reverse()`. Python's `list.sort` is stable; insertion sort with the
non-strict key order is the same stable ascending sort. -/
def sortedDescSources (sources : List VideoSource) : List VideoSource :=
  (List.insertionSort resLe sources).reverse

/-- Lines 609-622: filter the descending list to the requested resolution
label; fall back to the whole descending list when nothing matches. -/
def survivingSources (sources : List VideoSource) (resolution : String) :
    List VideoSource :=
  let sorted := sortedDescSources sources
  let filtered := sorted.filter (fun src => src.resolution == resolution)
  if filtered.length == 0 then sorted else filtered

/-- The source the primary stream is taken from (line 624's `sources[0]`). -/
def pickedSource (sources : List VideoSource) (resolution : String) :
    Option VideoSource :=
  (survivingSources sources resolution).head?

/-- One iteration of the subtitle loop of lines 632-649 (`track` is
`dom.get(subtitle_node)`, `ext` the extension, `desc` the description used
in the diagnostic). State is `(subtitle_language, video_content,
warnings)`; crucially the Python loop reassigns the `subtitle_language`
variable itself on fallback, so the state's language leaks into the next
iteration. Diagnostics are modelled as `desc ++ ":" ++ lang` markers. -/
def processSubtitleTrack (track : Option (List (String × String)))
    (ext desc : String)
    (st : String × List (String × String) × List String) :
    String × List (String × String) × List String :=
  let lang := st.1
  let vc := st.2.1
  let ws := st.2.2
  match track with
  | none => (lang, vc, ws)
  | some subs =>
      if lang == "all" then
        (lang,
         subs.foldl (fun acc p =>
           pyDictSet acc (p.1 ++ "." ++ ext) (make_coursera_absolute_url p.2)) vc,
         ws)
      else
        let fallback := lang != "en" && !(subs.any (fun p => p.1 == lang))
        let lang2 := if fallback then "en" else lang
        let ws2 := if fallback then ws ++ [desc ++ ":" ++ lang] else ws
        match pyDictGet subs lang2 with
        | some u =>
            (lang2, pyDictSet vc (lang2 ++ "." ++ ext) (make_coursera_absolute_url u), ws2)
        | none => (lang2, vc, ws2)

/-- Embedding of `_extract_videos_and_subtitles_from_lecture`
(lines 592-655): sort-and-reverse the sources, filter by requested
resolution with fallback (plus diagnostic) when absent, take the first
surviving source's MPEG-4 url as the `mp4` entry (`IndexError`/`KeyError`
modelled as `none`), then process the two subtitle tracks in order with
the shared mutable `subtitle_language`, and finally wrap every collected
url as a `(url, '')` pair. Returns the content (or `none` on a raised
error) together with the emitted warnings. -/
def extract_videos_and_subtitles (dom : VideoDom)
    (subtitle_language : String) (resolution : String) :
    Option (List (String × List (String × String))) × List String :=
  let sorted := sortedDescSources dom.sources
  let filtered := sorted.filter (fun src => src.resolution == resolution)
  let warns1 : List String :=
    if filtered.length == 0 then ["resolution:" ++ resolution] else []
  let sources2 := if filtered.length == 0 then sorted else filtered
  match sources2 with
  | [] => (none, warns1)
  | s0 :: _ =>
      match pyDictGet s0.formatSources "video/mp4" with
      | none => (none, warns1)
      | some video_url =>
          let st0 : String × List (String × String) × List String :=
            (subtitle_language, [("mp4", video_url)], warns1)
          let st1 := processSubtitleTrack dom.subtitles "srt" "subtitle" st0
          let st2 := processSubtitleTrack dom.subtitlesTxt "txt" "transcript" st1
          (some (st2.2.1.map (fun p => (p.1, [(p.2, "")]))), st2.2.2)

theorem strLeB_refl : ∀ l : List Char, strLeB l l = true
  | [] => rfl
  | a :: as => by simp [strLeB, strLeB_refl as]

theorem sorted_resLe_getLast {l : List VideoSource} (hs : List.Sorted resLe l) :
    ∀ t, t ∈ l → ∀ hne : l ≠ [], resLe t (l.getLast hne) := by
  induction l with
  | nil => intro t ht hne; exact absurd ht (by simp)
  | cons a rest ih =>
      intro t ht hne
      cases rest with
      | nil =>
          have hta : t = a := by simpa using ht
          subst hta
          exact strLeB_refl _
      | cons b rest' =>
          rw [List.getLast_cons (by simp)]
          rcases List.mem_cons.mp ht with hta | htr
          · subst hta
            exact List.rel_of_sorted_cons hs _ (List.getLast_mem _)
          · exact ih hs.of_cons t htr (by simp)

/-- The two concrete doms of the spec's video-selection examples. -/
def dom4 : VideoDom :=
  ⟨[⟨"360p", [("video/mp4", "u360")]⟩, ⟨"540p", [("video/mp4", "u540")]⟩,
    ⟨"720p", [("video/mp4", "u720")]⟩], none, none⟩

/-- **C4**: when some source's resolution label exactly equals the
requested value, the picked source is the first matching element of the
descending-sorted list and its resolution is the requested one; when no
source matches, the picked source is the head of the full
descending-sorted list. On the spec's example (`360p/540p/720p`):
requesting `540p` yields the 540p MPEG-4 url with empty title and no
diagnostic; requesting the absent `1080p` yields the 720p url plus the
fallback diagnostic. -/
theorem video_selection_matches_resolution :
    (∀ (sources : List VideoSource) (r : String), (∃ s ∈ sources, s.resolution = r) →
      ∃ s, pickedSource sources r = some s ∧ s.resolution = r ∧
        pickedSource sources r
          = ((sortedDescSources sources).filter (fun src => src.resolution == r)).head?) ∧
    (∀ (sources : List VideoSource) (r : String), sources ≠ [] →
      (∀ s ∈ sources, s.resolution ≠ r) →
      pickedSource sources r = (sortedDescSources sources).head?) ∧
    extract_videos_and_subtitles dom4 "en" "540p"
      = (some [("mp4", [("u540", "")])], []) ∧
    extract_videos_and_subtitles dom4 "en" "1080p"
      = (some [("mp4", [("u720", "")])], ["resolution:1080p"]) := by
  refine ⟨?_, ?_, by decide, by decide⟩
  · rintro sources r ⟨s, hs, hres⟩
    have hmem : s ∈ sortedDescSources sources := by
      simp [sortedDescSources, List.mem_reverse, List.mem_insertionSort]
      exact hs
    have hmemf : s ∈ (sortedDescSources sources).filter (fun src => src.resolution == r) := by
      simp [List.mem_filter, hmem, hres]
    cases hf : (sortedDescSources sources).filter (fun src => src.resolution == r) with
    | nil => rw [hf] at hmemf; exact absurd hmemf (by simp)
    | cons s0 rest =>
        have hs0 : s0 ∈ (sortedDescSources sources).filter (fun src => src.resolution == r) := by
          rw [hf]; exact List.mem_cons_self _ _
        have hs0r : s0.resolution = r := by
          have := (List.mem_filter.mp hs0).2
          simpa using this
        refine ⟨s0, ?_, hs0r, ?_⟩ <;>
          simp [pickedSource, survivingSources, hf]
  · intro sources r hne hnomatch
    have hf : (sortedDescSources sources).filter (fun src => src.resolution == r) = [] := by
      refine List.filter_eq_nil_iff.mpr ?_
      intro s hsmem
      have : s ∈ sources := by
        rw [sortedDescSources, List.mem_reverse, List.mem_insertionSort] at hsmem
        exact hsmem
      simp [hnomatch s this]
    simp [pickedSource, survivingSources, hf]

/-- Concrete dom containing both a `1080p` and a `720p` source. -/
def dom10 : VideoDom :=
  ⟨[⟨"1080p", [("video/mp4", "u1080")]⟩, ⟨"720p", [("video/mp4", "u720")]⟩],
   none, none⟩

/-- **C10**: the source ordering compares resolution labels as plain
strings: when the requested resolution is absent the fallback picks a
source whose label is lexicographically greatest among all sources (by
Python's string comparison, embedded as `pyStrLe`), and concretely, with
both `1080p` and `720p` present and `540p` requested, the fallback
selects the `720p` source (and its url), not the numerically higher
`1080p`. -/
theorem fallback_is_lexicographic_max :
    (∀ (sources : List VideoSource) (r : String), sources ≠ [] →
      (∀ s ∈ sources, s.resolution ≠ r) →
      ∃ s, pickedSource sources r = some s ∧
        ∀ t ∈ sources, pyStrLe t.resolution s.resolution = true) ∧
    pickedSource dom10.sources "540p" = some ⟨"720p", [("video/mp4", "u720")]⟩ ∧
    extract_videos_and_subtitles dom10 "en" "540p"
      = (some [("mp4", [("u720", "")])], ["resolution:540p"]) := by
  refine ⟨?_, by decide, by decide⟩
  intro sources r hne hnomatch
  have hf : (sortedDescSources sources).filter (fun src => src.resolution == r) = [] := by
    refine List.filter_eq_nil_iff.mpr ?_
    intro s hsmem
    have : s ∈ sources := by
      rw [sortedDescSources, List.mem_reverse, List.mem_insertionSort] at hsmem
      exact hsmem
    simp [hnomatch s this]
  have hLne : List.insertionSort resLe sources ≠ [] := by
    intro h
    apply hne
    have := List.perm_insertionSort resLe sources
    rw [h] at this
    exact this.symm.eq_nil
  refine ⟨(List.insertionSort resLe sources).getLast hLne, ?_, ?_⟩
  · simp only [pickedSource, survivingSources, hf]
    simp only [List.length_nil, beq_self_eq_true, if_true, if_pos]
    rw [sortedDescSources, List.head?_reverse]
    exact List.getLast?_eq_getLast _ hLne
  · intro t htmem
    exact sorted_resLe_getLast (List.sorted_insertionSort resLe sources) t
      ((List.mem_insertionSort resLe).mpr htmem) hLne

/-- **C4 witness**: both branches of the selection theorem instantiated
on the spec's `360p/540p/720p` example. -/
theorem video_selection_matches_resolution_witness :
    ((∃ s ∈ dom4.sources, s.resolution = "540p") ∧
     ∃ s, pickedSource dom4.sources "540p" = some s ∧ s.resolution = "540p" ∧
       pickedSource dom4.sources "540p"
         = ((sortedDescSources dom4.sources).filter
             (fun src => src.resolution == "540p")).head?) ∧
    (dom4.sources ≠ [] ∧ (∀ s ∈ dom4.sources, s.resolution ≠ "1080p") ∧
     pickedSource dom4.sources "1080p" = (sortedDescSources dom4.sources).head?) :=
  ⟨⟨by decide, video_selection_matches_resolution.1 dom4.sources "540p" (by decide)⟩,
   ⟨by decide, by decide,
    video_selection_matches_resolution.2.1 dom4.sources "1080p" (by decide) (by decide)⟩⟩

/-- **C10 witness**: the lexicographic-maximum fallback instantiated on
the `1080p`/`720p` source list with absent `540p` requested. -/
theorem fallback_is_lexicographic_max_witness :
    dom10.sources ≠ [] ∧ (∀ s ∈ dom10.sources, s.resolution ≠ "540p") ∧
    ∃ s, pickedSource dom10.sources "540p" = some s ∧
      ∀ t ∈ dom10.sources, pyStrLe t.resolution s.resolution = true :=
  ⟨by decide, by decide,
   fallback_is_lexicographic_max.1 dom10.sources "540p" (by decide) (by decide)⟩

/-- The failing input for C5: the subtitle track only offers `en`, the
transcript track offers both `fr` and `en`, and the user requests `fr`. -/
def dom5 : VideoDom :=
  ⟨[⟨"540p", [("video/mp4", "u")]⟩], some [("en", "/s1")],
    some [("fr", "/f2"), ("en", "/e3")]⟩

/-- **C5 (code evaluated at the failing input)**: requesting language
`fr` when the subtitle track lacks it but the transcript track has it:
the subtitle track falls back to `en` (with a diagnostic), and because
the code reassigns the shared `subtitle_language` variable, the
transcript track also emits `en.txt` — silently, with no second
diagnostic — even though `fr` is present in that track's map, so no
`fr.txt` entry is produced. The tracks are not handled independently. -/
theorem subtitle_fallback_leaks_across_tracks :
    extract_videos_and_subtitles dom5 "fr" "540p"
      = (some [("mp4", [("u", "")]),
               ("en.srt", [("https://www.coursera.org/s1", "")]),
               ("en.txt", [("https://www.coursera.org/e3", "")])],
         ["subtitle:fr"]) ∧
    pyDictGet (dom5.subtitlesTxt.getD []) "fr" = some "/f2" := by
  exact ⟨by decide, by decide⟩

/-! ## C7: `CourseraOnDemand._extract_links_from_a_tags_in_text`
(src/coursera/api.py, lines 854-904) -/

/-- Index of the last occurrence of `c` in `l` (Python `str.rfind`,
`none` for Python's `-1`). -/
def rfindIdx (l : List Char) (c : Char) : Option Nat :=
  match l.reverse.findIdx? (fun x => x == c) with
  | none => none
  | some j => some (l.length - 1 - j)

/-- `os.path.splitext` (posix): split at the last dot of the final path
segment, except that a basename consisting only of leading dots has no
extension. -/
def splitext (p : String) : String × String :=
  let chars := p.data
  let sepIndex : Int := match rfindIdx chars '/' with | none => -1 | some i => (i : Int)
  let dotIndex : Int := match rfindIdx chars '.' with | none => -1 | some i => (i : Int)
  if sepIndex < dotIndex then
    let start := (sepIndex + 1).toNat
    let stop := dotIndex.toNat
    if ((chars.drop start).take (stop - start)).all (fun c => c == '.') then (p, "")
    else (⟨chars.take stop⟩, ⟨chars.drop stop⟩)
  else (p, "")

/-- `os.path.basename` (posix): everything after the last `/`. -/
def pyBasename (p : String) : String :=
  match rfindIdx p.data '/' with
  | none => p
  | some i => ⟨p.data.drop (i + 1)⟩

/-- Modelled from the spec: `clean_url` lives in `coursera/utils.py`,
which is not under `src/`; the spec's anchor pass says only "split into
basename/extension by the final path segment" and prescribes no url
preprocessing, so the cleaning step is modelled as the identity. -/
def clean_url (url : String) : String := url

/-- Modelled from the spec: `clean_filename` lives in `coursera/utils.py`,
which is not under `src/`. The spec says extension keys are "lowercase,
punctuation-free, and filename-sanitized" and that a configurable "permit
unusual characters" flag controls strictness. Modelled as keeping ASCII
letters, digits, `_`, `-`, `.` and spaces and replacing every other
character with `_`; in unrestricted mode only the path separator is
replaced. -/
def clean_filename (s : String) (unrestricted : Bool) : String :=
  if unrestricted then ⟨s.data.map (fun c => if c == '/' then '_' else c)⟩
  else ⟨s.data.map (fun c =>
    if c.isAlphanum || c == '_' || c == '-' || c == '.' || c == ' ' then c else '_')⟩

/-- Lines 875-876: the stripped `href` attributes of all `<a>` elements
that carry one, in document order. -/
def collectHrefs (d : List Node) : List String :=
  (findTagsNodes "a" d).filterMap (fun n => match n with
    | .elem _ attrs _ => (attrGet attrs "href").map pyStrip
    | .text _ => none)

/-- Python string `<=` as a relation, for `sorted`. -/
def strLe (s t : String) : Prop := pyStrLe s t = true

instance : DecidableRel strLe :=
  fun s t => inferInstanceAs (Decidable (pyStrLe s t = true))

instance : IsTotal String strLe := ⟨fun s t => strLeB_total s.data t.data⟩

instance : IsTrans String strLe := ⟨fun _ _ _ => strLeB_trans _ _ _⟩

/-- Line 877: `sorted(list(set(links)))` — deduplicate, then sort
lexicographically. A Python `set`'s iteration order is arbitrary, but the
sorted order of the distinct values does not depend on it, so any
duplicate-removal gives the same sorted result. -/
def sortedHrefs (d : List Node) : List String :=
  List.insertionSort strLe (collectHrefs d).dedup

/-- A supplement-links bucket: insertion-ordered dict from extension key
to the ordered list of `(url, title)` entries. -/
abbrev SupplementLinks := List (String × List (String × String))

/-- The entries stored under key `k`. -/
def bucketEntries (b : SupplementLinks) (k : String) : List (String × String) :=
  (pyDictGet b k).getD []

/-- Lines 894-902 for one entry: ensure the key exists (`[]` if absent)
and append the entry to its list. -/
def bucketAppend (b : SupplementLinks) (key : String) (e : String × String) :
    SupplementLinks :=
  match b with
  | [] => [(key, [e])]
  | (k, es) :: rest =>
      if k == key then (k, es ++ [e]) :: rest
      else (k, es) :: bucketAppend rest key e

/-- The loop body of lines 880-902: split the (cleaned) link, drop it
silently when the extension is empty, otherwise append
`(link, sanitized basename)` under the lowercased, dot-stripped,
sanitized extension key. -/
def addLinkToBucket (unrestricted : Bool) (b : SupplementLinks) (link : String) :
    SupplementLinks :=
  let fe := splitext (clean_url link)
  if fe.2 == "" then b
  else
    bucketAppend b (clean_filename (pyStrip (pyStripDot (pyLower fe.2))) unrestricted)
      (link, clean_filename (pyBasename fe.1) unrestricted)

/-- Embedding of `_extract_links_from_a_tags_in_text` (lines 854-904). -/
def extract_links_from_a_tags_in_text (unrestricted : Bool) (d : List Node) :
    SupplementLinks :=
  (sortedHrefs d).foldl (addLinkToBucket unrestricted) []

theorem bucketEntries_append_same (b : SupplementLinks) (k : String)
    (e : String × String) :
    bucketEntries (bucketAppend b k e) k = bucketEntries b k ++ [e] := by
  induction b with
  | nil => simp [bucketAppend, bucketEntries, pyDictGet]
  | cons p rest ih =>
      obtain ⟨k', es⟩ := p
      by_cases h : k' = k
      · simp [bucketAppend, bucketEntries, pyDictGet, h]
      · have hfind : ∀ tail : SupplementLinks,
            List.find? (fun p => p.1 == k) ((k', es) :: tail)
              = List.find? (fun p => p.1 == k) tail :=
          fun tail => List.find?_cons_of_neg _ (by simpa using h)
        simp only [bucketAppend]
        rw [if_neg (by simpa using h)]
        simp only [bucketEntries, pyDictGet] at ih ⊢
        rw [hfind, hfind]
        exact ih

theorem bucketEntries_append_other (b : SupplementLinks) (k k' : String)
    (e : String × String) (h : k ≠ k') :
    bucketEntries (bucketAppend b k' e) k = bucketEntries b k := by
  induction b with
  | nil =>
      have : List.find? (fun p => p.1 == k) [(k', [e])] = none :=
        List.find?_cons_of_neg _ (by simpa using Ne.symm h)
      simp [bucketAppend, bucketEntries, pyDictGet, this]
  | cons p rest ih =>
      obtain ⟨k0, es⟩ := p
      by_cases h0 : k0 = k'
      · subst h0
        have hfind : ∀ tail : SupplementLinks,
            List.find? (fun p => p.1 == k) ((k0, es) :: tail)
              = List.find? (fun p => p.1 == k) tail :=
          fun tail => List.find?_cons_of_neg _ (by simpa using Ne.symm h)
        have hfind2 : ∀ tail : SupplementLinks,
            List.find? (fun p => p.1 == k) ((k0, es ++ [e]) :: tail)
              = List.find? (fun p => p.1 == k) tail :=
          fun tail => List.find?_cons_of_neg _ (by simpa using Ne.symm h)
        simp only [bucketAppend, beq_self_eq_true, if_true, if_pos]
        simp only [bucketEntries, pyDictGet]
        rw [hfind, hfind2]
      · simp only [bucketAppend]
        rw [if_neg (by simpa using h0)]
        by_cases hk : k0 = k
        · have hfind : ∀ tail : SupplementLinks,
              List.find? (fun p => p.1 == k) ((k0, es) :: tail) = some (k0, es) :=
            fun tail => List.find?_cons_of_pos _ (by simpa using hk)
          simp [bucketEntries, pyDictGet, hfind]
        · have hfind : ∀ tail : SupplementLinks,
              List.find? (fun p => p.1 == k) ((k0, es) :: tail)
                = List.find? (fun p => p.1 == k) tail :=
            fun tail => List.find?_cons_of_neg _ (by simpa using hk)
          simp only [bucketEntries, pyDictGet] at ih ⊢
          rw [hfind, hfind]
          exact ih

theorem mem_bucket_addLink (u : Bool) (b : SupplementLinks) (l : String)
    (k : String) (e : String × String) (h : e ∈ bucketEntries b k) :
    e ∈ bucketEntries (addLinkToBucket u b l) k := by
  unfold addLinkToBucket
  by_cases he : (splitext (clean_url l)).2 == ""
  · simpa [he] using h
  · simp only [he, if_false, Bool.false_eq_true]
    set key := clean_filename (pyStrip (pyStripDot (pyLower (splitext (clean_url l)).2))) u
    by_cases hk : k = key
    · subst hk
      rw [bucketEntries_append_same]
      exact List.mem_append_left _ h
    · rw [bucketEntries_append_other _ _ _ _ hk]
      exact h

theorem mem_bucket_foldl_of_mem (u : Bool) (links : List String) :
    ∀ (b : SupplementLinks) (k : String) (e : String × String),
      e ∈ bucketEntries b k →
      e ∈ bucketEntries (links.foldl (addLinkToBucket u) b) k := by
  induction links with
  | nil => intro b k e h; simpa using h
  | cons l ls ih =>
      intro b k e h
      exact ih (addLinkToBucket u b l) k e (mem_bucket_addLink u b l k e h)

theorem mem_bucket_foldl_intro (u : Bool) (links : List String) :
    ∀ (b : SupplementLinks) (l : String), l ∈ links →
      (splitext (clean_url l)).2 ≠ "" →
      (l, clean_filename (pyBasename (splitext (clean_url l)).1) u)
        ∈ bucketEntries (links.foldl (addLinkToBucket u) b)
            (clean_filename (pyStrip (pyStripDot (pyLower (splitext (clean_url l)).2))) u) := by
  induction links with
  | nil => intro b l h; exact absurd h (by simp)
  | cons l0 ls ih =>
      intro b l hmem hext
      rcases List.mem_cons.mp hmem with h0 | hls
      · subst h0
        simp only [List.foldl_cons]
        apply mem_bucket_foldl_of_mem
        unfold addLinkToBucket
        have he : ((splitext (clean_url l)).2 == "") = false := by simpa using hext
        simp only [he, if_false, Bool.false_eq_true]
        rw [bucketEntries_append_same]
        exact List.mem_append_right _ (List.mem_singleton.mpr rfl)
      · exact ih _ l hls hext

theorem bucket_foldl_elim (u : Bool) (links : List String) :
    ∀ (b : SupplementLinks) (k : String) (e : String × String),
      e ∈ bucketEntries (links.foldl (addLinkToBucket u) b) k →
      e ∈ bucketEntries b k ∨
        ∃ l ∈ links, (splitext (clean_url l)).2 ≠ "" ∧
          k = clean_filename (pyStrip (pyStripDot (pyLower (splitext (clean_url l)).2))) u ∧
          e = (l, clean_filename (pyBasename (splitext (clean_url l)).1) u) := by
  induction links with
  | nil => intro b k e h; exact Or.inl (by simpa using h)
  | cons l0 ls ih =>
      intro b k e h
      rcases ih (addLinkToBucket u b l0) k e h with hin | ⟨l, hl, hrest⟩
      · unfold addLinkToBucket at hin
        by_cases he : (splitext (clean_url l0)).2 == ""
        · left
          simpa [he] using hin
        · simp only [he, if_false, Bool.false_eq_true] at hin
          by_cases hk : k = clean_filename
              (pyStrip (pyStripDot (pyLower (splitext (clean_url l0)).2))) u
          · rw [hk, bucketEntries_append_same] at hin
            rcases List.mem_append.mp hin with hb | hnew
            · left
              exact hk ▸ hb
            · right
              exact ⟨l0, List.mem_cons_self _ _, by simpa using he, hk,
                     List.mem_singleton.mp hnew⟩
          · rw [bucketEntries_append_other _ _ _ _ hk] at hin
            exact Or.inl hin
      · exact Or.inr ⟨l, List.mem_cons_of_mem _ hl, hrest⟩

/-- **C7**: the anchor pass collects the hrefs, deduplicates and sorts
them; a sorted link with empty extension produces no entry at all
(silently), a sorted link with a nonempty extension produces the entry
`(url, sanitized basename)` under the lowercased, dot-stripped, sanitized
extension key; and on the spec's concrete examples `http://a.com/x.PDF`
yields bucket key `pdf` with basename `x` while the bare
`http://pandas.pydata.org/` yields no entry. -/
theorem anchor_extraction_buckets (d : List Node) (u : Bool) :
    ((sortedHrefs d).Nodup ∧ List.Sorted strLe (sortedHrefs d)) ∧
    (∀ link ∈ sortedHrefs d, (splitext (clean_url link)).2 ≠ "" →
      (link, clean_filename (pyBasename (splitext (clean_url link)).1) u)
        ∈ bucketEntries (extract_links_from_a_tags_in_text u d)
            (clean_filename (pyStrip (pyStripDot (pyLower (splitext (clean_url link)).2))) u)) ∧
    (∀ link ∈ sortedHrefs d, (splitext (clean_url link)).2 = "" →
      ∀ k e, e ∈ bucketEntries (extract_links_from_a_tags_in_text u d) k →
        e.1 ≠ link) ∧
    extract_links_from_a_tags_in_text false
        [Node.elem "a" [("href", "http://a.com/x.PDF")] []]
      = [("pdf", [("http://a.com/x.PDF", "x")])] ∧
    extract_links_from_a_tags_in_text false
        [Node.elem "a" [("href", "http://pandas.pydata.org/")] []] = [] := by
  refine ⟨⟨?_, ?_⟩, ?_, ?_, by decide, by decide⟩
  · exact ((List.perm_insertionSort strLe _).nodup_iff).mpr (List.nodup_dedup _)
  · exact List.sorted_insertionSort strLe _
  · intro link hmem hext
    exact mem_bucket_foldl_intro u (sortedHrefs d) [] link hmem hext
  · intro link hmem hext k e he
    rcases bucket_foldl_elim u (sortedHrefs d) [] k e he with hnil | ⟨l, _, hlext, _, hel⟩
    · simp [bucketEntries, pyDictGet] at hnil
    · intro h1
      apply hlext
      have : e.1 = l := by rw [hel]
      rw [← this, h1, hext]

/-- The two concrete anchor documents of the spec's examples. -/
def doc7pdf : List Node := [Node.elem "a" [("href", "http://a.com/x.PDF")] []]

def doc7bare : List Node := [Node.elem "a" [("href", "http://pandas.pydata.org/")] []]

/-- **C7 witness**: both the entry-producing and the silently-dropping
branches instantiated at the spec's example links. -/
theorem anchor_extraction_buckets_witness :
    ("http://a.com/x.PDF" ∈ sortedHrefs doc7pdf ∧
     (splitext (clean_url "http://a.com/x.PDF")).2 ≠ "" ∧
     ("http://a.com/x.PDF",
       clean_filename (pyBasename (splitext (clean_url "http://a.com/x.PDF")).1) false)
       ∈ bucketEntries (extract_links_from_a_tags_in_text false doc7pdf)
           (clean_filename
             (pyStrip (pyStripDot (pyLower (splitext (clean_url "http://a.com/x.PDF")).2)))
             false)) ∧
    ("http://pandas.pydata.org/" ∈ sortedHrefs doc7bare ∧
     (splitext (clean_url "http://pandas.pydata.org/")).2 = "" ∧
     ∀ k e, e ∈ bucketEntries (extract_links_from_a_tags_in_text false doc7bare) k →
       e.1 ≠ "http://pandas.pydata.org/") :=
  ⟨⟨by decide, by decide,
    (anchor_extraction_buckets doc7pdf false).2.1 _ (by decide) (by decide)⟩,
   ⟨by decide, by decide,
    (anchor_extraction_buckets doc7bare false).2.2.1 _ (by decide) (by decide)⟩⟩

/-! ## C8: `CourseraOnDemand._extract_links_from_lecture_assets` and
`_get_asset_urls` (src/coursera/api.py, lines 472-565), with explicit
tracking of the network calls they issue. -/

/-- One element of the `OPENCOURSE_ASSETS_URL` reply: its `typeName` and
its `definition` dict (string-valued fields, accessed by key and raising
`KeyError` when absent). -/
structure AssetElement where
  typeName : String
  definition : List (String × String)
deriving DecidableEq

/-- Endpoint markers for the tracked calls. -/
def ASSETS_URL : String := "OPENCOURSE_ASSETS_URL"

def ASSETS_V1_URL : String := "OPENCOURSE_API_ASSETS_V1_URL"

/-- The network environment of the asset resolver: `assets` is
`get_page_json(OPENCOURSE_ASSETS_URL, id=<param>)['elements']` and
`assetsV1` is `get_page_json(OPENCOURSE_API_ASSETS_V1_URL,
id=<param>)['elements']`, each keyed by the id query parameter. -/
structure AssetsEnv where
  assets : String → List AssetElement
  assetsV1 : String → List V1Asset

/-- A tracked call: `(endpoint, id parameter)`. -/
abbrev ApiCall := String × String

/-- Embedding of `_get_open_course_asset_urls` (lines 567-590): one
second-level call returning stripped name/url pairs. -/
def get_open_course_asset_urls (env : AssetsEnv) (asset_id : String) :
    List (String × String) × List ApiCall :=
  ((env.assetsV1 asset_id).map (fun e => (pyStrip e.name, pyStrip e.url)),
   [(ASSETS_V1_URL, asset_id)])

/-- The element loop of `_get_asset_urls` (lines 525-565): `asset`-typed
elements trigger a second-level resolve of their inner `assetId` and the
resulting pairs are appended (stripped again, as in lines 541-542);
`url`-typed elements contribute their stripped name/url directly; any
other `typeName` is logged and dropped; a missing dict field raises
(`none`), aborting the loop after the calls already made. -/
def getAssetUrlsLoop (env : AssetsEnv) (acc : List (String × String)) :
    List AssetElement → Option (List (String × String)) × List ApiCall
  | [] => (some acc, [])
  | el :: rest =>
      if el.typeName == "asset" then
        match pyDictGet el.definition "assetId" with
        | none => (none, [])
        | some innerId =>
            let sub := get_open_course_asset_urls env innerId
            let r := getAssetUrlsLoop env
              (acc ++ sub.1.map (fun p => (pyStrip p.1, pyStrip p.2))) rest
            (r.1, sub.2 ++ r.2)
      else if el.typeName == "url" then
        match pyDictGet el.definition "name", pyDictGet el.definition "url" with
        | some nm, some u =>
            getAssetUrlsLoop env (acc ++ [(pyStrip nm, pyStrip u)]) rest
        | _, _ => (none, [])
      else getAssetUrlsLoop env acc rest

/-- Embedding of `_get_asset_urls` (lines 506-565): ONE first-level call
carrying this single asset id, then the element dispatch loop. -/
def get_asset_urls (env : AssetsEnv) (asset_id : String) :
    Option (List (String × String)) × List ApiCall :=
  let r := getAssetUrlsLoop env [] (env.assets asset_id)
  (r.1, (ASSETS_URL, asset_id) :: r.2)

/-- Embedding of `_add_asset` (lines 483-498). -/
def add_asset (unrestricted : Bool) (name url : String) (dest : SupplementLinks) :
    SupplementLinks :=
  let fe := splitext (clean_url name)
  if fe.2 == "" then dest
  else
    bucketAppend dest (clean_filename (pyStrip (pyStripDot (pyLower fe.2))) unrestricted)
      (pyStrip url, clean_filename (pyBasename fe.1) unrestricted)

/-- The id loop of `_extract_links_from_lecture_assets` (lines 500-502):
one `_get_asset_urls` call per asset id, in order; an exception aborts
the loop (calls already made stand). -/
def extractAssetsLoop (env : AssetsEnv) (u : Bool) (links : SupplementLinks) :
    List String → Option SupplementLinks × List ApiCall
  | [] => (some links, [])
  | aid :: rest =>
      let r := get_asset_urls env aid
      match r.1 with
      | none => (none, r.2)
      | some assets =>
          let links2 := assets.foldl (fun d p => add_asset u p.1 p.2 d) links
          let tail := extractAssetsLoop env u links2 rest
          (tail.1, r.2 ++ tail.2)

/-- Embedding of `_extract_links_from_lecture_assets` (lines 472-504). -/
def extract_links_from_lecture_assets (env : AssetsEnv) (u : Bool)
    (asset_ids : List String) : Option SupplementLinks × List ApiCall :=
  extractAssetsLoop env u [] asset_ids

/-- The per-element dispatch the reply goes through (the claim's three
cases: indirect `asset` record, direct `url` record, or dropped unknown
type). -/
def dispatchElement (env : AssetsEnv) (el : AssetElement) : List (String × String) :=
  if el.typeName == "asset" then
    match pyDictGet el.definition "assetId" with
    | some innerId =>
        ((env.assetsV1 innerId).map (fun e => (pyStrip e.name, pyStrip e.url))).map
          (fun p => (pyStrip p.1, pyStrip p.2))
    | none => []
  else if el.typeName == "url" then
    match pyDictGet el.definition "name", pyDictGet el.definition "url" with
    | some nm, some u => [(pyStrip nm, pyStrip u)]
    | _, _ => []
  else []

theorem getAssetUrlsLoop_calls_v1 (env : AssetsEnv) :
    ∀ (els : List AssetElement) (acc : List (String × String)),
      ∀ c ∈ (getAssetUrlsLoop env acc els).2, c.1 = ASSETS_V1_URL := by
  intro els
  induction els with
  | nil => intro acc c hc; simp [getAssetUrlsLoop] at hc
  | cons el rest ih =>
      intro acc c hc
      unfold getAssetUrlsLoop at hc
      by_cases h1 : (el.typeName == "asset") = true
      · rw [if_pos h1] at hc
        cases hd : pyDictGet el.definition "assetId" with
        | none => rw [hd] at hc; simp at hc
        | some innerId =>
            rw [hd] at hc
            simp only [get_open_course_asset_urls] at hc
            rcases List.mem_append.mp hc with h | h
            · rw [List.mem_singleton.mp h]
            · exact ih _ c h
      · rw [if_neg h1] at hc
        by_cases h2 : (el.typeName == "url") = true
        · rw [if_pos h2] at hc
          cases hn : pyDictGet el.definition "name" with
          | none => rw [hn] at hc; simp at hc
          | some nm =>
              cases hu : pyDictGet el.definition "url" with
              | none => rw [hn, hu] at hc; simp at hc
              | some url =>
                  rw [hn, hu] at hc
                  exact ih _ c hc
        · rw [if_neg h2] at hc
          exact ih _ c hc

theorem get_asset_urls_first_level (env : AssetsEnv) (aid : String) :
    ((get_asset_urls env aid).2).filter (fun c => c.1 == ASSETS_URL)
      = [(ASSETS_URL, aid)] := by
  unfold get_asset_urls
  rw [List.filter_cons]
  have h2 : List.filter (fun c : ApiCall => c.1 == ASSETS_URL)
      (getAssetUrlsLoop env [] (env.assets aid)).2 = [] := by
    refine List.filter_eq_nil_iff.mpr ?_
    intro c hc
    have hv := getAssetUrlsLoop_calls_v1 env _ _ c hc
    rw [hv]
    decide
  simp [h2]

theorem getAssetUrlsLoop_success (env : AssetsEnv) :
    ∀ (els : List AssetElement) (acc urls : List (String × String)),
      (getAssetUrlsLoop env acc els).1 = some urls →
      urls = acc ++ els.flatMap (dispatchElement env) := by
  intro els
  induction els with
  | nil =>
      intro acc urls h
      simp only [getAssetUrlsLoop, Option.some.injEq] at h
      simp [← h]
  | cons el rest ih =>
      intro acc urls h
      unfold getAssetUrlsLoop at h
      rw [List.flatMap_cons]
      by_cases h1 : (el.typeName == "asset") = true
      · rw [if_pos h1] at h
        cases hd : pyDictGet el.definition "assetId" with
        | none => rw [hd] at h; simp at h
        | some innerId =>
            rw [hd] at h
            simp only [get_open_course_asset_urls] at h
            have := ih _ urls h
            rw [this, dispatchElement, if_pos h1, hd, List.append_assoc]
      · rw [if_neg h1] at h
        by_cases h2 : (el.typeName == "url") = true
        · rw [if_pos h2] at h
          cases hn : pyDictGet el.definition "name" with
          | none => rw [hn] at h; simp at h
          | some nm =>
              cases hu : pyDictGet el.definition "url" with
              | none => rw [hn, hu] at h; simp at h
              | some url =>
                  rw [hn, hu] at h
                  have := ih _ urls h
                  rw [this, dispatchElement, if_neg h1, if_pos h2, hn, hu,
                      List.append_assoc]
        · rw [if_neg h2] at h
          have := ih _ urls h
          rw [this, dispatchElement, if_neg h1, if_neg h2]
          simp

theorem extractAssetsLoop_first_level (env : AssetsEnv) (u : Bool) :
    ∀ (ids : List String) (links : SupplementLinks),
      (extractAssetsLoop env u links ids).1.isSome = true →
      ((extractAssetsLoop env u links ids).2).filter (fun c => c.1 == ASSETS_URL)
        = ids.map (fun i => (ASSETS_URL, i)) := by
  intro ids
  induction ids with
  | nil => intro links _; rfl
  | cons aid rest ih =>
      intro links hs
      cases hr : (get_asset_urls env aid).1 with
      | none =>
          simp only [extractAssetsLoop, hr] at hs
          simp at hs
      | some assets =>
          simp only [extractAssetsLoop, hr] at hs ⊢
          simp only [List.filter_append]
          rw [get_asset_urls_first_level env aid, ih _ hs]
          rfl

/-- **C8 counterexample**: resolving the two container ids `a` and `b`
issues two first-level lookup calls (one per id, each carrying that
single id), not one batched call carrying `a,b`. -/
theorem first_level_resolution_not_batched :
    (extract_links_from_lecture_assets ⟨fun _ => [], fun _ => []⟩ false ["a", "b"]).2
      = [(ASSETS_URL, "a"), (ASSETS_URL, "b")] ∧
    ¬((extract_links_from_lecture_assets ⟨fun _ => [], fun _ => []⟩ false
        ["a", "b"]).2).length = 1 :=
  ⟨by decide, by decide⟩

/-- **C8 (amended)**: resolving N container ids issues exactly N
first-level lookup calls, one per id in input order, each carrying that
single id; each per-id reply is dispatched per element into indirect
`asset` records (resolved through the second-level endpoint), direct
`url` records, or silently dropped unrecognized types. -/
theorem first_level_resolution_per_id (env : AssetsEnv) (u : Bool)
    (ids : List String)
    (hs : (extract_links_from_lecture_assets env u ids).1.isSome = true) :
    ((extract_links_from_lecture_assets env u ids).2).filter
        (fun c => c.1 == ASSETS_URL)
      = ids.map (fun i => (ASSETS_URL, i)) ∧
    (∀ aid, ((get_asset_urls env aid).2).filter (fun c => c.1 == ASSETS_URL)
      = [(ASSETS_URL, aid)]) ∧
    (∀ aid urls, (get_asset_urls env aid).1 = some urls →
      urls = (env.assets aid).flatMap (dispatchElement env)) := by
  refine ⟨extractAssetsLoop_first_level env u ids [] hs,
          get_asset_urls_first_level env, ?_⟩
  intro aid urls h
  simpa using getAssetUrlsLoop_success env (env.assets aid) [] urls h

/-- **C8 witness**: the amended statement at the concrete two-id input in
a trivial environment. -/
theorem first_level_resolution_per_id_witness :
    (extract_links_from_lecture_assets ⟨fun _ => [], fun _ => []⟩ false
        ["a", "b"]).1.isSome = true ∧
    ((extract_links_from_lecture_assets ⟨fun _ => [], fun _ => []⟩ false
        ["a", "b"]).2).filter (fun c => c.1 == ASSETS_URL)
      = ["a", "b"].map (fun i => (ASSETS_URL, i)) :=
  ⟨by decide,
   (first_level_resolution_per_id ⟨fun _ => [], fun _ => []⟩ false ["a", "b"]
     (by decide)).1⟩

/-! ## C1: bucket merge (`extend_supplement_links`) -/

/-- The merge step for one of B's entries under key `k`: append it to the
accumulator's list for `k` unless an entry with the identical URL already
exists there (the check is against the current, already-extended list, as
the spec's imperative wording implies). -/
def mergeStep (k : String) (acc : SupplementLinks) (e : String × String) :
    SupplementLinks :=
  if (bucketEntries acc k).any (fun x => x.1 == e.1) then acc
  else bucketAppend acc k e

/-- "Ensure the key exists in A (create empty list if absent)". -/
def ensureKey (b : SupplementLinks) (k : String) : SupplementLinks :=
  if (pyDictGet b k).isSome then b else b ++ [(k, [])]

/-- Modelled from the spec: `extend_supplement_links` lives in
`coursera/utils.py`, which is not under `src/`. Spec §4.5: "Merge(A, B):
for every extension key present in B, ensure the key exists in A (create
empty list if absent), then append each of B's entries to A's list unless
an entry with the identical URL already exists under that key in A." -/
def extend_supplement_links (dst src : SupplementLinks) : SupplementLinks :=
  src.foldl (fun acc kv => kv.2.foldl (mergeStep kv.1) (ensureKey acc kv.1)) dst

/-- The URLs stored under key `k`. -/
def bucketUrls (b : SupplementLinks) (k : String) : List String :=
  (bucketEntries b k).map Prod.fst

theorem bucketEntries_append_emptyKey (b : SupplementLinks) (k' k : String) :
    bucketEntries (b ++ [(k', [])]) k = bucketEntries b k := by
  induction b with
  | nil =>
      by_cases h : (k' == k) = true <;>
        simp [bucketEntries, pyDictGet, List.find?, h]
  | cons p rest ih =>
      obtain ⟨k0, es⟩ := p
      by_cases h : (k0 == k) = true <;>
        simpa [bucketEntries, pyDictGet, List.find?, h] using ih

theorem bucketEntries_ensureKey (b : SupplementLinks) (k' k : String) :
    bucketEntries (ensureKey b k') k = bucketEntries b k := by
  unfold ensureKey
  by_cases h : (pyDictGet b k').isSome
  · rw [if_pos h]
  · rw [if_neg h]
    exact bucketEntries_append_emptyKey b k' k

theorem mem_mergeStep (k' k : String) (acc : SupplementLinks)
    (e' e : String × String) (h : e ∈ bucketEntries acc k) :
    e ∈ bucketEntries (mergeStep k' acc e') k := by
  unfold mergeStep
  by_cases hd : (bucketEntries acc k').any (fun x => x.1 == e'.1)
  · simpa [hd] using h
  · simp only [hd, if_false, Bool.false_eq_true]
    by_cases hk : k = k'
    · subst hk
      rw [bucketEntries_append_same]
      exact List.mem_append_left _ h
    · rw [bucketEntries_append_other _ _ _ _ hk]
      exact h

theorem mem_mergeInner (k' k : String) (es : List (String × String))
    (e : String × String) :
    ∀ acc, e ∈ bucketEntries acc k →
      e ∈ bucketEntries (es.foldl (mergeStep k') acc) k := by
  induction es with
  | nil => intro acc h; exact h
  | cons e' es' ih =>
      intro acc h
      exact ih _ (mem_mergeStep k' k acc e' e h)

theorem mem_mergeOuter (k : String) (e : String × String) (src : SupplementLinks) :
    ∀ acc, e ∈ bucketEntries acc k →
      e ∈ bucketEntries (extend_supplement_links acc src) k := by
  induction src with
  | nil => intro acc h; exact h
  | cons kv src' ih =>
      intro acc h
      have h1 : e ∈ bucketEntries (ensureKey acc kv.1) k := by
        rw [bucketEntries_ensureKey]; exact h
      exact ih _ (mem_mergeInner kv.1 k kv.2 e _ h1)

theorem url_mem_of_entry (b : SupplementLinks) (k : String) (e : String × String)
    (h : e ∈ bucketEntries b k) : e.1 ∈ bucketUrls b k :=
  List.mem_map.mpr ⟨e, h, rfl⟩

theorem url_mem_mergeOuter (k : String) (url : String) (src : SupplementLinks) :
    ∀ acc, url ∈ bucketUrls acc k →
      url ∈ bucketUrls (extend_supplement_links acc src) k := by
  intro acc h
  obtain ⟨e, he, rfl⟩ := List.mem_map.mp h
  exact url_mem_of_entry _ _ _ (mem_mergeOuter k e src acc he)

theorem url_mem_mergeInner (k : String) (url : String) (es : List (String × String)) :
    ∀ acc, url ∈ bucketUrls acc k →
      url ∈ bucketUrls (es.foldl (mergeStep k) acc) k := by
  intro acc h
  obtain ⟨e, he, rfl⟩ := List.mem_map.mp h
  exact url_mem_of_entry _ _ _ (mem_mergeInner k k es e acc he)

theorem url_mem_mergeInner_intro (k : String) (url : String)
    (es : List (String × String)) :
    ∀ acc, url ∈ es.map Prod.fst →
      url ∈ bucketUrls (es.foldl (mergeStep k) acc) k := by
  induction es with
  | nil => intro acc h; exact absurd h (by simp)
  | cons e es' ih =>
      intro acc h
      rcases List.mem_cons.mp h with h0 | hrest
      · subst h0
        rw [List.foldl_cons]
        apply url_mem_mergeInner k e.1 es' (mergeStep k acc e)
        unfold mergeStep
        by_cases hd : ((bucketEntries acc k).any (fun x => x.1 == e.1)) = true
        · rw [if_pos hd]
          obtain ⟨x, hx, hxe⟩ := List.any_eq_true.mp hd
          have : x.1 = e.1 := by simpa using hxe
          exact this ▸ url_mem_of_entry _ _ _ hx
        · rw [if_neg hd]
          unfold bucketUrls
          rw [bucketEntries_append_same, List.map_append]
          exact List.mem_append_right _ (by simp)
      · exact ih _ hrest

theorem url_mem_mergeOuter_intro (url : String) (src : SupplementLinks) :
    ∀ (acc : SupplementLinks) (k : String) (es : List (String × String)),
      (k, es) ∈ src → url ∈ es.map Prod.fst →
      url ∈ bucketUrls (extend_supplement_links acc src) k := by
  induction src with
  | nil => intro acc k es h; exact absurd h (by simp)
  | cons kv src' ih =>
      intro acc k es hmem hurl
      rcases List.mem_cons.mp hmem with h0 | hrest
      · subst h0
        exact url_mem_mergeOuter k url src' _
          (url_mem_mergeInner_intro k url es _ hurl)
      · exact ih _ k es hrest hurl

theorem url_mergeStep_elim (k' k url : String) (acc : SupplementLinks)
    (e : String × String) (h : url ∈ bucketUrls (mergeStep k' acc e) k) :
    url ∈ bucketUrls acc k ∨ (k = k' ∧ url = e.1) := by
  unfold mergeStep at h
  by_cases hd : ((bucketEntries acc k').any (fun x => x.1 == e.1)) = true
  · rw [if_pos hd] at h
    exact Or.inl h
  · rw [if_neg hd] at h
    by_cases hk : k = k'
    · subst hk
      unfold bucketUrls at h
      rw [bucketEntries_append_same, List.map_append] at h
      rcases List.mem_append.mp h with h1 | h2
      · exact Or.inl h1
      · exact Or.inr ⟨rfl, by simpa using h2⟩
    · unfold bucketUrls at h
      rw [bucketEntries_append_other _ _ _ _ hk] at h
      exact Or.inl h

theorem url_mergeInner_elim (k' k url : String) (es : List (String × String)) :
    ∀ acc, url ∈ bucketUrls (es.foldl (mergeStep k') acc) k →
      url ∈ bucketUrls acc k ∨ (k = k' ∧ url ∈ es.map Prod.fst) := by
  induction es with
  | nil => intro acc h; exact Or.inl h
  | cons e es' ih =>
      intro acc h
      rcases ih _ h with hstep | ⟨hk, hmem⟩
      · rcases url_mergeStep_elim k' k url acc e hstep with h1 | ⟨hk, hurl⟩
        · exact Or.inl h1
        · exact Or.inr ⟨hk, by simp [hurl]⟩
      · exact Or.inr ⟨hk, by simp [hmem]⟩

theorem url_mergeOuter_elim (k url : String) (src : SupplementLinks) :
    ∀ acc, url ∈ bucketUrls (extend_supplement_links acc src) k →
      url ∈ bucketUrls acc k ∨ ∃ es, (k, es) ∈ src ∧ url ∈ es.map Prod.fst := by
  induction src with
  | nil => intro acc h; exact Or.inl h
  | cons kv src' ih =>
      intro acc h
      rcases ih _ h with hin | ⟨es, hes, hurl⟩
      · rcases url_mergeInner_elim kv.1 k url kv.2 _ hin with h1 | ⟨hk, hmem⟩
        · left
          unfold bucketUrls at h1 ⊢
          rwa [bucketEntries_ensureKey] at h1
        · right
          exact ⟨kv.2, by rw [hk]; exact List.mem_cons_self _ _, hmem⟩
      · exact Or.inr ⟨es, List.mem_cons_of_mem _ hes, hurl⟩

theorem nodup_mergeStep (k' : String) (acc : SupplementLinks) (e : String × String)
    (h : ∀ k, (bucketUrls acc k).Nodup) :
    ∀ k, (bucketUrls (mergeStep k' acc e) k).Nodup := by
  intro k
  unfold mergeStep
  by_cases hd : ((bucketEntries acc k').any (fun x => x.1 == e.1)) = true
  · rw [if_pos hd]
    exact h k
  · rw [if_neg hd]
    by_cases hk : k = k'
    · subst hk
      unfold bucketUrls
      rw [bucketEntries_append_same, List.map_append]
      have hnotin : e.1 ∉ bucketUrls acc k := by
        intro hmem
        apply hd
        obtain ⟨x, hx, hxe⟩ := List.mem_map.mp hmem
        exact List.any_eq_true.mpr ⟨x, hx, by simp [hxe]⟩
      simp only [List.map_cons, List.map_nil]
      refine List.Nodup.append (h k) (List.nodup_singleton _) ?_
      intro a ha hb
      rw [List.mem_singleton] at hb
      subst hb
      exact hnotin ha
    · unfold bucketUrls
      rw [bucketEntries_append_other _ _ _ _ hk]
      exact h k

theorem nodup_mergeInner (k' : String) (es : List (String × String)) :
    ∀ acc, (∀ k, (bucketUrls acc k).Nodup) →
      ∀ k, (bucketUrls (es.foldl (mergeStep k') acc) k).Nodup := by
  induction es with
  | nil => intro acc h; exact h
  | cons e es' ih =>
      intro acc h
      exact ih _ (nodup_mergeStep k' acc e h)

theorem nodup_mergeOuter (src : SupplementLinks) :
    ∀ acc, (∀ k, (bucketUrls acc k).Nodup) →
      ∀ k, (bucketUrls (extend_supplement_links acc src) k).Nodup := by
  induction src with
  | nil => intro acc h; exact h
  | cons kv src' ih =>
      intro acc h
      refine ih _ (nodup_mergeInner kv.1 kv.2 _ ?_)
      intro k
      unfold bucketUrls
      rw [bucketEntries_ensureKey]
      exact h k

/-- **C1 (amended)**: Merge is monotonic — every entry of A is still
present under its key; every URL occurring in B under a key is present in
the result under that key (so no URL is lost); if A had no duplicate URLs
within any key then neither does the result; and the result's per-key URL
set is exactly the union of A's and B's per-key URL sets, so repeated
merging is lossless and merge-order-independent at the URL-set level.
(Full results are not order-independent: entry order and surviving titles
depend on merge order, see the counterexample.) -/
theorem merge_monotonic_lossless_dedup (A B : SupplementLinks) :
    (∀ k e, e ∈ bucketEntries A k → e ∈ bucketEntries (extend_supplement_links A B) k) ∧
    (∀ k es url, (k, es) ∈ B → url ∈ es.map Prod.fst →
      url ∈ bucketUrls (extend_supplement_links A B) k) ∧
    ((∀ k, (bucketUrls A k).Nodup) →
      ∀ k, (bucketUrls (extend_supplement_links A B) k).Nodup) ∧
    (∀ k url, url ∈ bucketUrls (extend_supplement_links A B) k ↔
      url ∈ bucketUrls A k ∨ ∃ es, (k, es) ∈ B ∧ url ∈ es.map Prod.fst) := by
  refine ⟨fun k e h => mem_mergeOuter k e B A h,
          fun k es url hmem hurl => url_mem_mergeOuter_intro url B A k es hmem hurl,
          fun h => nodup_mergeOuter B A h,
          fun k url => ⟨fun h => url_mergeOuter_elim k url B A h, ?_⟩⟩
  rintro (h | ⟨es, hes, hurl⟩)
  · exact url_mem_mergeOuter k url B A h
  · exact url_mem_mergeOuter_intro url B A k es hes hurl

/-- **C1 counterexample**: merging the same two buckets in the two
possible orders gives different results (same URL set, different entry
order), so repeated merging does not converge to one result independent
of merge order. -/
theorem merge_not_order_independent :
    extend_supplement_links (extend_supplement_links [] [("pdf", [("u1", "")])])
        [("pdf", [("u2", "")])]
      = [("pdf", [("u1", ""), ("u2", "")])] ∧
    extend_supplement_links (extend_supplement_links [] [("pdf", [("u2", "")])])
        [("pdf", [("u1", "")])]
      = [("pdf", [("u2", ""), ("u1", "")])] ∧
    ([("pdf", [("u1", ""), ("u2", "")])] : SupplementLinks)
      ≠ [("pdf", [("u2", ""), ("u1", "")])] :=
  ⟨by decide, by decide, by decide⟩

/-- Concrete buckets for the C1 witness: A holds `u1` under `pdf`, B adds
a duplicate of `u1` (dropped) and a fresh `u2` (kept). -/
def c1A : SupplementLinks := [("pdf", [("u1", "t")])]

def c1B : SupplementLinks := [("pdf", [("u1", "x"), ("u2", "y")])]

/-- **C1 witness**: the amended statement instantiated at concrete
buckets, with the duplicate-freedom hypothesis discharged. -/
theorem merge_monotonic_lossless_dedup_witness :
    (("u1", "t") ∈ bucketEntries c1A "pdf" ∧
     ("u1", "t") ∈ bucketEntries (extend_supplement_links c1A c1B) "pdf") ∧
    (("pdf", [("u1", "x"), ("u2", "y")]) ∈ c1B ∧
     "u2" ∈ bucketUrls (extend_supplement_links c1A c1B) "pdf") ∧
    ((∀ k, (bucketUrls c1A k).Nodup) ∧
     ∀ k, (bucketUrls (extend_supplement_links c1A c1B) k).Nodup) := by
  have hA : ∀ k, (bucketUrls c1A k).Nodup := by
    intro k
    by_cases h : ("pdf" == k) = true <;>
      simp [bucketUrls, bucketEntries, pyDictGet, List.find?, c1A, h]
  exact ⟨⟨by decide, (merge_monotonic_lossless_dedup c1A c1B).1 "pdf" _ (by decide)⟩,
         ⟨by decide,
          (merge_monotonic_lossless_dedup c1A c1B).2.1 "pdf"
            [("u1", "x"), ("u2", "y")] "u2" (by decide) (by decide)⟩,
         ⟨hA, (merge_monotonic_lossless_dedup c1A c1B).2.2.1 hA⟩⟩

end CourseraDL
